import Mathlib

/-!
# Verification of the PNCP contractions extractor

A shallow embedding, in Lean 4, of the core of the `pncpdataextractor`
repository: the schema normalizer (`extractor.py`,
`PNCPContractionsExtractor.normalize_record_schema`), the request retry loop
(`make_request` / `extract_page_data`), the two-stage content filter
(`filter_manager.py` / `llm_filter.py`) and the date planner
(`get_date_ranges_for_extraction`).  Python dictionaries are modelled as
insertion-ordered association lists over `String` keys, JSON values as the
inductive type `JVal`, machine time as natural-number seconds, and the
OpenAI network call as an explicit `Except`-valued oracle parameter.
Floating-point cost/latency accounting is not modelled (no theorem below
concerns it).
-/

set_option maxHeartbeats 1000000

namespace PNCP

/-- A JSON value as manipulated by the Python code (`response.json()`,
records, nested sub-objects).  Objects are insertion-ordered association
lists, mirroring Python 3.7+ `dict` semantics. -/
inductive JVal where
  | null : JVal
  | bool : Bool → JVal
  | num : Int → JVal
  | str : String → JVal
  | arr : List JVal → JVal
  | obj : List (String × JVal) → JVal

/-- A Python `dict` with string keys, e.g. a raw API record. -/
abbrev Rec := List (String × JVal)

/-- First value bound to key `k`, i.e. Python `d[k]` / `d.get(k)`. -/
def alistLookup {α : Type} (d : List (String × α)) (k : String) : Option α :=
  match d with
  | [] => none
  | (k', v) :: rest => if k' = k then some v else alistLookup rest k

/-- Python `d[k] = v`: replace the value in place if the key exists
(keeping its position), otherwise append the binding at the end. -/
def alistSet {α : Type} (d : List (String × α)) (k : String) (v : α) :
    List (String × α) :=
  match d with
  | [] => [(k, v)]
  | (k', v') :: rest =>
    if k' = k then (k, v) :: rest else (k', v') :: alistSet rest k v

/-- Python `del d[k]`: drop the (first) binding of `k`. -/
def alistErase {α : Type} (d : List (String × α)) (k : String) :
    List (String × α) :=
  match d with
  | [] => []
  | (k', v') :: rest =>
    if k' = k then rest else (k', v') :: alistErase rest k

/-- The key list of a dict, in insertion order. -/
def recKeys {α : Type} (d : List (String × α)) : List String :=
  d.map Prod.fst

@[simp] theorem alistLookup_nil {α : Type} (k : String) :
    alistLookup ([] : List (String × α)) k = none := rfl

theorem alistLookup_cons {α : Type} (k k' : String) (v : α) (d : List (String × α)) :
    alistLookup ((k', v) :: d) k = if k' = k then some v else alistLookup d k := rfl

@[simp] theorem alistLookup_set_self {α : Type} (d : List (String × α)) (k : String) (v : α) :
    alistLookup (alistSet d k v) k = some v := by
  induction d with
  | nil => simp [alistSet, alistLookup]
  | cons p rest ih =>
    obtain ⟨k', v'⟩ := p
    by_cases h : k' = k
    · simp [alistSet, h, alistLookup]
    · simp [alistSet, h, alistLookup, ih]

theorem alistLookup_set_ne {α : Type} (d : List (String × α)) (k k' : String) (v : α)
    (h : k ≠ k') : alistLookup (alistSet d k v) k' = alistLookup d k' := by
  induction d with
  | nil => simp [alistSet, alistLookup, h]
  | cons p rest ih =>
    obtain ⟨k0, v0⟩ := p
    by_cases h0 : k0 = k
    · subst h0
      simp [alistSet, alistLookup, h, ih]
    · by_cases h1 : k0 = k'
      · simp [alistSet, alistLookup, h0, h1, Ne.symm h]
      · simp [alistSet, alistLookup, h0, h1, ih]

theorem alistSet_self {α : Type} (d : List (String × α)) (k : String) (v : α)
    (h : alistLookup d k = some v) : alistSet d k v = d := by
  induction d with
  | nil => simp [alistLookup] at h
  | cons p rest ih =>
    obtain ⟨k0, v0⟩ := p
    by_cases h0 : k0 = k
    · subst h0
      simp [alistLookup] at h
      simp [alistSet, h]
    · simp [alistLookup, h0] at h
      simp [alistSet, h0, ih h]

theorem alistLookup_erase_ne {α : Type} (d : List (String × α)) (k k' : String)
    (h : k ≠ k') : alistLookup (alistErase d k) k' = alistLookup d k' := by
  induction d with
  | nil => simp [alistErase]
  | cons p rest ih =>
    obtain ⟨k0, v0⟩ := p
    by_cases h0 : k0 = k
    · subst h0
      simp [alistErase, alistLookup, h]
    · simp [alistErase, h0, alistLookup, ih]

theorem mem_keys_iff_lookup_isSome {α : Type} (d : List (String × α)) (k : String) :
    k ∈ recKeys d ↔ (alistLookup d k).isSome := by
  induction d with
  | nil => simp [recKeys, alistLookup]
  | cons p rest ih =>
    obtain ⟨k0, v0⟩ := p
    by_cases h : k0 = k
    · subst h
      simp [recKeys, alistLookup]
    · simp only [recKeys, List.map_cons, List.mem_cons, alistLookup_cons, if_neg h]
      constructor
      · rintro (h' | h')
        · exact absurd h'.symm h
        · exact ih.mp h'
      · intro hs
        exact Or.inr (ih.mpr hs)

theorem mem_keys_set {α : Type} (d : List (String × α)) (k k' : String) (v : α) :
    k' ∈ recKeys (alistSet d k v) ↔ k' ∈ recKeys d ∨ k' = k := by
  by_cases h : k' = k
  · subst h
    rw [mem_keys_iff_lookup_isSome, alistLookup_set_self]
    simp
  · rw [mem_keys_iff_lookup_isSome, alistLookup_set_ne d k k' v (fun hk => h hk.symm),
      ← mem_keys_iff_lookup_isSome]
    constructor
    · exact Or.inl
    · rintro (h' | h')
      · exact h'
      · exact absurd h' h

/-! ## SchemaNormalizer

Embedding of `PNCPContractionsExtractor.normalize_record_schema`
(`src/extractor.py`, lines 331-440).  Python mutates a shallow copy of the
record in place; the embedding threads the record functionally, which
yields the same output value.  Where Python would raise a `TypeError`
(a nested field holding a number, boolean or — for the leaf-fill loop — a
string not containing every leaf name as a substring), the embedding
returns `none`.
-/

/-- `needle` occurs at the head of `hay` (character-list prefix test). -/
def charsStartWith : List Char → List Char → Bool
  | [], _ => true
  | _ :: _, [] => false
  | a :: as, b :: bs => if a = b then charsStartWith as bs else false

/-- `needle` occurs somewhere in `hay` (character-list containment). -/
def charsContain (needle : List Char) : List Char → Bool
  | [] => charsStartWith needle []
  | c :: rest => charsStartWith needle (c :: rest) || charsContain needle rest

/-- Substring test used to model Python's `field not in value` when
`value` is a string. -/
def strHasSub (needle hay : String) : Bool :=
  charsContain needle.data hay.data

/-- `default_unidade_schema` from `normalize_record_schema`. -/
def default_unidade_schema : Rec :=
  [("codigoIbge", .null), ("codigoUnidade", .null), ("municipioNome", .null),
   ("nomeUnidade", .null), ("ufNome", .null), ("ufSigla", .null)]

/-- `default_orgao_schema` from `normalize_record_schema`. -/
def default_orgao_schema : Rec :=
  [("cnpj", .null), ("esferaId", .null), ("poderId", .null), ("razaoSocial", .null)]

/-- `default_amparo_schema` from `normalize_record_schema`. -/
def default_amparo_schema : Rec :=
  [("codigo", .null), ("descricao", .null), ("nome", .null)]

/-- `default_fonte_schema` from `normalize_record_schema`. -/
def default_fonte_schema : Rec :=
  [("codigo", .null), ("dataInclusao", .null), ("descricao", .null), ("nome", .null)]

/-- The leaf-fill loop
`for field, default_value in schema.items(): if field not in sub: sub[field] = default_value`. -/
def fillDefaults : Rec → Rec → Rec
  | [], sub => sub
  | kv :: rest, sub =>
    if (alistLookup sub kv.1).isSome then fillDefaults rest sub
    else fillDefaults rest (alistSet sub kv.1 kv.2)

/-- One `Normalizar <campo>` block of `normalize_record_schema`: absent or
`None` values are replaced by a copy of the default schema; a present dict
has its missing leaves filled.  A string survives Python's `field not in s`
loop unchanged only when every leaf name occurs in it as a substring; any
other non-dict value raises `TypeError`, modelled as `none`. -/
def normalizeNested (defaults : Rec) (field : String) (d : Rec) : Option Rec :=
  match alistLookup d field with
  | none => some (alistSet d field (.obj defaults))
  | some .null => some (alistSet d field (.obj defaults))
  | some (.obj sub) => some (alistSet d field (.obj (fillDefaults defaults sub)))
  | some (.str s) =>
    if defaults.all (fun kv => strHasSub kv.1 s) then some d else none
  | some _ => none

/-- One element of the `fontesOrcamentarias` array: `None` becomes a copy of
`default_fonte_schema`, a dict has its missing leaves filled; other shapes
raise `TypeError` in Python (modelled as `none`), except a string containing
every leaf name as a substring, which is kept unchanged. -/
def normalizeFonte (f : JVal) : Option JVal :=
  match f with
  | .null => some (.obj default_fonte_schema)
  | .obj sub => some (.obj (fillDefaults default_fonte_schema sub))
  | .str s =>
    if default_fonte_schema.all (fun kv => strHasSub kv.1 s) then some (.str s) else none
  | _ => none

/-- The `for fonte in normalized['fontesOrcamentarias']` accumulation loop;
the first failing element aborts with the `TypeError`. -/
def mapNormalizeFonte : List JVal → Option (List JVal)
  | [] => some []
  | f :: rest =>
    match normalizeFonte f with
    | none => none
    | some g =>
      match mapNormalizeFonte rest with
      | none => none
      | some gs => some (g :: gs)

/-- The `Normalizar fontesOrcamentarias (array)` block.  Iterating a
non-list raises `TypeError` except for the degenerate empty string / empty
dict, whose empty iteration produces `[]`. -/
def normalizeFontes (d : Rec) : Option Rec :=
  match alistLookup d "fontesOrcamentarias" with
  | none => some (alistSet d "fontesOrcamentarias" (.arr []))
  | some .null => some (alistSet d "fontesOrcamentarias" (.arr []))
  | some (.arr xs) =>
    match mapNormalizeFonte xs with
    | none => none
    | some ys => some (alistSet d "fontesOrcamentarias" (.arr ys))
  | some (.str s) =>
    if s.isEmpty then some (alistSet d "fontesOrcamentarias" (.arr [])) else none
  | some (.obj o) =>
    if o.isEmpty then some (alistSet d "fontesOrcamentarias" (.arr [])) else none
  | some _ => none

/-- The five dict-valued fixed nested fields with their default schemas, in
the order `normalize_record_schema` processes them. -/
def fixedObjSchemas : List (String × Rec) :=
  [("unidadeOrgao", default_unidade_schema),
   ("orgaoEntidade", default_orgao_schema),
   ("amparoLegal", default_amparo_schema),
   ("unidadeSubRogada", default_unidade_schema),
   ("orgaoSubRogado", default_orgao_schema)]

/-- The six fixed nested-field names. -/
def fixedFieldNames : List String :=
  ["unidadeOrgao", "orgaoEntidade", "amparoLegal", "unidadeSubRogada",
   "orgaoSubRogado", "fontesOrcamentarias"]

/-- Values of a nested field that the leaf-fill block maps to themselves:
a dict in which every leaf of the default schema is already present, or
(degenerately) a string surviving Python's containment loop. -/
def nestedStable (ds : Rec) (v : JVal) : Prop :=
  (∃ s, v = .obj s ∧ fillDefaults ds s = s) ∨
  (∃ t, v = .str t ∧ ds.all (fun kv => strHasSub kv.1 t) = true)

/-- `PNCPContractionsExtractor.normalize_record_schema`: the six fixed
nested fields are forced to the fixed shape, every other entry of the
record is left untouched. -/
def normalize_record_schema (record : Rec) : Option Rec :=
  (normalizeNested default_unidade_schema "unidadeOrgao" record).bind fun d1 =>
  (normalizeNested default_orgao_schema "orgaoEntidade" d1).bind fun d2 =>
  (normalizeNested default_amparo_schema "amparoLegal" d2).bind fun d3 =>
  (normalizeNested default_unidade_schema "unidadeSubRogada" d3).bind fun d4 =>
  (normalizeNested default_orgao_schema "orgaoSubRogado" d4).bind fun d5 =>
  normalizeFontes d5

theorem alistLookup_cons_pair {α : Type} (p : String × α) (d : List (String × α)) (k : String) :
    alistLookup (p :: d) k = if p.1 = k then some p.2 else alistLookup d k := by
  obtain ⟨a, b⟩ := p
  rfl

theorem lookup_isSome_of_mem {α : Type} {d : List (String × α)} {k : String} {v : α}
    (h : (k, v) ∈ d) : (alistLookup d k).isSome := by
  induction d with
  | nil => simp at h
  | cons p rest ih =>
    obtain ⟨k0, v0⟩ := p
    rcases List.mem_cons.mp h with h' | h'
    · have hk : k = k0 := (Prod.ext_iff.mp h').1
      simp [alistLookup, hk]
    · by_cases he : k0 = k
      · simp [alistLookup, he]
      · simpa [alistLookup, he] using ih h'

theorem fill_lookup_some (ds : Rec) :
    ∀ sub k v, alistLookup sub k = some v →
      alistLookup (fillDefaults ds sub) k = some v := by
  induction ds with
  | nil => intro sub k v h; simpa [fillDefaults] using h
  | cons kv rest ih =>
    intro sub k v h
    simp only [fillDefaults]
    by_cases hk : (alistLookup sub kv.1).isSome
    · rw [if_pos hk]; exact ih sub k v h
    · rw [if_neg hk]
      have hne : kv.1 ≠ k := by
        intro he; rw [he, h] at hk; simp at hk
      exact ih _ k v (by rw [alistLookup_set_ne sub kv.1 k kv.2 hne]; exact h)

theorem fill_lookup_none (ds : Rec) :
    ∀ sub k, alistLookup sub k = none →
      alistLookup (fillDefaults ds sub) k = alistLookup ds k := by
  induction ds with
  | nil => intro sub k h; simpa [fillDefaults] using h
  | cons kv rest ih =>
    intro sub k h
    simp only [fillDefaults]
    by_cases hk : (alistLookup sub kv.1).isSome
    · rw [if_pos hk]
      have hne : kv.1 ≠ k := by
        intro he; rw [he, h] at hk; simp at hk
      rw [ih sub k h, alistLookup_cons_pair, if_neg hne]
    · rw [if_neg hk]
      by_cases he : kv.1 = k
      · subst he
        rw [fill_lookup_some rest _ kv.1 kv.2 (alistLookup_set_self sub kv.1 kv.2),
          alistLookup_cons_pair, if_pos rfl]
      · rw [ih _ k (by rw [alistLookup_set_ne sub kv.1 k kv.2 he]; exact h),
          alistLookup_cons_pair, if_neg he]

theorem fillDefaults_nochange (ds : Rec) :
    ∀ sub, (∀ kv ∈ ds, (alistLookup sub kv.1).isSome) → fillDefaults ds sub = sub := by
  induction ds with
  | nil => intro sub _; rfl
  | cons kv rest ih =>
    intro sub h
    simp only [fillDefaults, if_pos (h kv (List.mem_cons_self kv rest))]
    exact ih sub fun kv' hm => h kv' (List.mem_cons_of_mem kv hm)

theorem fillDefaults_self (ds : Rec) : fillDefaults ds ds = ds :=
  fillDefaults_nochange ds ds fun _ hm => lookup_isSome_of_mem hm

theorem fillDefaults_present (ds sub : Rec) (k : String) (v : JVal) (h : (k, v) ∈ ds) :
    (alistLookup (fillDefaults ds sub) k).isSome := by
  cases hs : alistLookup sub k with
  | some w => rw [fill_lookup_some ds sub k w hs]; rfl
  | none =>
    rw [fill_lookup_none ds sub k hs]
    exact lookup_isSome_of_mem h

theorem fillDefaults_idem (ds sub : Rec) :
    fillDefaults ds (fillDefaults ds sub) = fillDefaults ds sub :=
  fillDefaults_nochange ds _ fun kv hm => fillDefaults_present ds sub kv.1 kv.2 hm

theorem mem_keys_fillDefaults (ds sub : Rec) (k : String) :
    k ∈ recKeys (fillDefaults ds sub) ↔ k ∈ recKeys sub ∨ k ∈ recKeys ds := by
  cases hs : alistLookup sub k with
  | some v =>
    have h1 : k ∈ recKeys sub := by
      rw [mem_keys_iff_lookup_isSome, hs]; rfl
    simp [mem_keys_iff_lookup_isSome, fill_lookup_some ds sub k v hs, h1]
  | none =>
    have h1 : ¬ k ∈ recKeys sub := by
      rw [mem_keys_iff_lookup_isSome, hs]; simp
    rw [mem_keys_iff_lookup_isSome, fill_lookup_none ds sub k hs,
      ← mem_keys_iff_lookup_isSome]
    tauto

theorem normalizeNested_lookup_ne (ds : Rec) (f : String) (d d' : Rec) (k : String)
    (h : normalizeNested ds f d = some d') (hk : k ≠ f) :
    alistLookup d' k = alistLookup d k := by
  simp only [normalizeNested] at h
  split at h
  · cases h; exact alistLookup_set_ne d f k _ (Ne.symm hk)
  · cases h; exact alistLookup_set_ne d f k _ (Ne.symm hk)
  · cases h; exact alistLookup_set_ne d f k _ (Ne.symm hk)
  · split at h
    · cases h; rfl
    · cases h
  · cases h

theorem normalizeNested_keys (ds : Rec) (f : String) (d d' : Rec)
    (h : normalizeNested ds f d = some d') (k : String) :
    k ∈ recKeys d' ↔ k ∈ recKeys d ∨ k = f := by
  simp only [normalizeNested] at h
  split at h
  · cases h; exact mem_keys_set d f k _
  · cases h; exact mem_keys_set d f k _
  · cases h; exact mem_keys_set d f k _
  · rename_i t heq
    split at h
    · cases h
      have hf : f ∈ recKeys d := by
        rw [mem_keys_iff_lookup_isSome, heq]; rfl
      constructor
      · exact Or.inl
      · rintro (h' | h')
        · exact h'
        · rw [h']; exact hf
    · cases h
  · cases h

theorem normalizeNested_self (ds : Rec) (f : String) (d d' : Rec)
    (h : normalizeNested ds f d = some d') :
    ∃ v, alistLookup d' f = some v ∧ nestedStable ds v := by
  simp only [normalizeNested] at h
  split at h
  · cases h
    exact ⟨.obj ds, alistLookup_set_self d f _,
      Or.inl ⟨ds, rfl, fillDefaults_self ds⟩⟩
  · cases h
    exact ⟨.obj ds, alistLookup_set_self d f _,
      Or.inl ⟨ds, rfl, fillDefaults_self ds⟩⟩
  · rename_i sub heq
    cases h
    exact ⟨.obj (fillDefaults ds sub), alistLookup_set_self d f _,
      Or.inl ⟨fillDefaults ds sub, rfl, fillDefaults_idem ds sub⟩⟩
  · rename_i t heq
    split at h
    · rename_i hc
      cases h
      exact ⟨.str t, heq, Or.inr ⟨t, rfl, hc⟩⟩
    · cases h
  · cases h

theorem normalizeNested_of_stable (ds : Rec) (f : String) (d : Rec) (v : JVal)
    (hl : alistLookup d f = some v) (hs : nestedStable ds v) :
    normalizeNested ds f d = some d := by
  rcases hs with ⟨s, rfl, hfix⟩ | ⟨t, rfl, hall⟩
  · simp only [normalizeNested, hl, hfix]
    rw [alistSet_self d f (.obj s) hl]
  · simp only [normalizeNested, hl, hall, if_true]

theorem normalizeFonte_idem (x y : JVal) (h : normalizeFonte x = some y) :
    normalizeFonte y = some y := by
  simp only [normalizeFonte] at h
  split at h
  · cases h
    simp only [normalizeFonte, fillDefaults_self]
  · cases h
    simp only [normalizeFonte, fillDefaults_idem]
  · rename_i t
    split at h
    · rename_i hc
      cases h
      simp only [normalizeFonte, hc, if_true]
    · cases h
  · cases h

theorem mapNormalizeFonte_of_all (ys : List JVal)
    (h : ∀ y ∈ ys, normalizeFonte y = some y) : mapNormalizeFonte ys = some ys := by
  induction ys with
  | nil => rfl
  | cons y rest ih =>
    simp only [mapNormalizeFonte, h y (List.mem_cons_self y rest),
      ih fun y' hy => h y' (List.mem_cons_of_mem y hy)]

theorem mapNormalizeFonte_all (xs : List JVal) :
    ∀ ys, mapNormalizeFonte xs = some ys → ∀ y ∈ ys, normalizeFonte y = some y := by
  induction xs with
  | nil =>
    intro ys h y hy
    simp only [mapNormalizeFonte] at h
    cases h
    simp at hy
  | cons x rest ih =>
    intro ys h y hy
    simp only [mapNormalizeFonte] at h
    cases hx : normalizeFonte x with
    | none => rw [hx] at h; cases h
    | some g =>
      rw [hx] at h
      cases hr : mapNormalizeFonte rest with
      | none => rw [hr] at h; cases h
      | some gs =>
        rw [hr] at h
        cases h
        rcases List.mem_cons.mp hy with rfl | hy'
        · exact normalizeFonte_idem x y hx
        · exact ih gs hr y hy'

theorem normalizeFontes_lookup_ne (d d' : Rec) (k : String)
    (h : normalizeFontes d = some d') (hk : k ≠ "fontesOrcamentarias") :
    alistLookup d' k = alistLookup d k := by
  simp only [normalizeFontes] at h
  split at h
  · cases h; exact alistLookup_set_ne d _ k _ (Ne.symm hk)
  · cases h; exact alistLookup_set_ne d _ k _ (Ne.symm hk)
  · cases hm : mapNormalizeFonte _ with
    | none => rw [hm] at h; cases h
    | some ys => rw [hm] at h; cases h; exact alistLookup_set_ne d _ k _ (Ne.symm hk)
  · split at h
    · cases h; exact alistLookup_set_ne d _ k _ (Ne.symm hk)
    · cases h
  · split at h
    · cases h; exact alistLookup_set_ne d _ k _ (Ne.symm hk)
    · cases h
  · cases h

theorem normalizeFontes_keys (d d' : Rec)
    (h : normalizeFontes d = some d') (k : String) :
    k ∈ recKeys d' ↔ k ∈ recKeys d ∨ k = "fontesOrcamentarias" := by
  simp only [normalizeFontes] at h
  split at h
  · cases h; exact mem_keys_set d _ k _
  · cases h; exact mem_keys_set d _ k _
  · cases hm : mapNormalizeFonte _ with
    | none => rw [hm] at h; cases h
    | some ys => rw [hm] at h; cases h; exact mem_keys_set d _ k _
  · split at h
    · cases h; exact mem_keys_set d _ k _
    · cases h
  · split at h
    · cases h; exact mem_keys_set d _ k _
    · cases h
  · cases h

theorem normalizeFontes_self (d d' : Rec) (h : normalizeFontes d = some d') :
    ∃ ys, alistLookup d' "fontesOrcamentarias" = some (.arr ys) ∧
      mapNormalizeFonte ys = some ys := by
  simp only [normalizeFontes] at h
  split at h
  · cases h; exact ⟨[], alistLookup_set_self d _ _, rfl⟩
  · cases h; exact ⟨[], alistLookup_set_self d _ _, rfl⟩
  · rename_i xs heq
    cases hm : mapNormalizeFonte xs with
    | none => rw [hm] at h; cases h
    | some ys =>
      rw [hm] at h
      cases h
      exact ⟨ys, alistLookup_set_self d _ _,
        mapNormalizeFonte_of_all ys (mapNormalizeFonte_all xs ys hm)⟩
  · split at h
    · cases h; exact ⟨[], alistLookup_set_self d _ _, rfl⟩
    · cases h
  · split at h
    · cases h; exact ⟨[], alistLookup_set_self d _ _, rfl⟩
    · cases h
  · cases h

theorem normalizeFontes_of_fixed (d : Rec) (ys : List JVal)
    (hl : alistLookup d "fontesOrcamentarias" = some (.arr ys))
    (hm : mapNormalizeFonte ys = some ys) : normalizeFontes d = some d := by
  simp only [normalizeFontes, hl, hm]
  rw [alistSet_self d _ _ hl]

theorem normalize_chain (r d : Rec) (h : normalize_record_schema r = some d) :
    ∃ d1 d2 d3 d4 d5,
      normalizeNested default_unidade_schema "unidadeOrgao" r = some d1 ∧
      normalizeNested default_orgao_schema "orgaoEntidade" d1 = some d2 ∧
      normalizeNested default_amparo_schema "amparoLegal" d2 = some d3 ∧
      normalizeNested default_unidade_schema "unidadeSubRogada" d3 = some d4 ∧
      normalizeNested default_orgao_schema "orgaoSubRogado" d4 = some d5 ∧
      normalizeFontes d5 = some d := by
  unfold normalize_record_schema at h
  rw [Option.bind_eq_some] at h
  obtain ⟨d1, h1, h⟩ := h
  rw [Option.bind_eq_some] at h
  obtain ⟨d2, h2, h⟩ := h
  rw [Option.bind_eq_some] at h
  obtain ⟨d3, h3, h⟩ := h
  rw [Option.bind_eq_some] at h
  obtain ⟨d4, h4, h⟩ := h
  rw [Option.bind_eq_some] at h
  obtain ⟨d5, h5, h⟩ := h
  exact ⟨d1, d2, d3, d4, d5, h1, h2, h3, h4, h5, h⟩

/-- Characterization of the outputs of `normalize_record_schema`: every
fixed dict-valued nested field holds a value the leaf-fill block maps to
itself, and `fontesOrcamentarias` holds a list of such elements. -/
def normalizedRec (d : Rec) : Prop :=
  (∀ p ∈ fixedObjSchemas, ∃ v, alistLookup d p.1 = some v ∧ nestedStable p.2 v) ∧
  (∃ ys, alistLookup d "fontesOrcamentarias" = some (.arr ys) ∧
    mapNormalizeFonte ys = some ys)

theorem normalize_output_normalized (r d : Rec)
    (h : normalize_record_schema r = some d) : normalizedRec d := by
  obtain ⟨d1, d2, d3, d4, d5, h1, h2, h3, h4, h5, h6⟩ := normalize_chain r d h
  constructor
  · intro p hp
    simp only [fixedObjSchemas, List.mem_cons, List.not_mem_nil, or_false] at hp
    rcases hp with rfl | rfl | rfl | rfl | rfl
    · obtain ⟨v, hv, hs⟩ := normalizeNested_self _ _ _ _ h1
      refine ⟨v, ?_, hs⟩
      rw [normalizeFontes_lookup_ne d5 d _ h6 (by decide),
        normalizeNested_lookup_ne _ _ d4 d5 _ h5 (by decide),
        normalizeNested_lookup_ne _ _ d3 d4 _ h4 (by decide),
        normalizeNested_lookup_ne _ _ d2 d3 _ h3 (by decide),
        normalizeNested_lookup_ne _ _ d1 d2 _ h2 (by decide)]
      exact hv
    · obtain ⟨v, hv, hs⟩ := normalizeNested_self _ _ _ _ h2
      refine ⟨v, ?_, hs⟩
      rw [normalizeFontes_lookup_ne d5 d _ h6 (by decide),
        normalizeNested_lookup_ne _ _ d4 d5 _ h5 (by decide),
        normalizeNested_lookup_ne _ _ d3 d4 _ h4 (by decide),
        normalizeNested_lookup_ne _ _ d2 d3 _ h3 (by decide)]
      exact hv
    · obtain ⟨v, hv, hs⟩ := normalizeNested_self _ _ _ _ h3
      refine ⟨v, ?_, hs⟩
      rw [normalizeFontes_lookup_ne d5 d _ h6 (by decide),
        normalizeNested_lookup_ne _ _ d4 d5 _ h5 (by decide),
        normalizeNested_lookup_ne _ _ d3 d4 _ h4 (by decide)]
      exact hv
    · obtain ⟨v, hv, hs⟩ := normalizeNested_self _ _ _ _ h4
      refine ⟨v, ?_, hs⟩
      rw [normalizeFontes_lookup_ne d5 d _ h6 (by decide),
        normalizeNested_lookup_ne _ _ d4 d5 _ h5 (by decide)]
      exact hv
    · obtain ⟨v, hv, hs⟩ := normalizeNested_self _ _ _ _ h5
      refine ⟨v, ?_, hs⟩
      rw [normalizeFontes_lookup_ne d5 d _ h6 (by decide)]
      exact hv
  · exact normalizeFontes_self d5 d h6

theorem normalize_of_normalized (d : Rec) (h : normalizedRec d) :
    normalize_record_schema d = some d := by
  obtain ⟨hobj, ys, hy, hm⟩ := h
  obtain ⟨v1, hv1, hs1⟩ := hobj ("unidadeOrgao", default_unidade_schema) (by
    simp [fixedObjSchemas])
  obtain ⟨v2, hv2, hs2⟩ := hobj ("orgaoEntidade", default_orgao_schema) (by
    simp [fixedObjSchemas])
  obtain ⟨v3, hv3, hs3⟩ := hobj ("amparoLegal", default_amparo_schema) (by
    simp [fixedObjSchemas])
  obtain ⟨v4, hv4, hs4⟩ := hobj ("unidadeSubRogada", default_unidade_schema) (by
    simp [fixedObjSchemas])
  obtain ⟨v5, hv5, hs5⟩ := hobj ("orgaoSubRogado", default_orgao_schema) (by
    simp [fixedObjSchemas])
  unfold normalize_record_schema
  rw [normalizeNested_of_stable _ _ _ _ hv1 hs1, Option.some_bind,
    normalizeNested_of_stable _ _ _ _ hv2 hs2, Option.some_bind,
    normalizeNested_of_stable _ _ _ _ hv3 hs3, Option.some_bind,
    normalizeNested_of_stable _ _ _ _ hv4 hs4, Option.some_bind,
    normalizeNested_of_stable _ _ _ _ hv5 hs5, Option.some_bind]
  exact normalizeFontes_of_fixed d ys hy hm

/-- **C8.** `normalize_record_schema` is idempotent: whenever it maps `r`
to a record `d` (i.e. does not raise), running it again on `d` returns `d`
unchanged. -/
theorem normalize_record_schema_idempotent (r d : Rec)
    (h : normalize_record_schema r = some d) :
    normalize_record_schema d = some d :=
  normalize_of_normalized d (normalize_output_normalized r d h)

/-- The normalization of the empty record: all-null fixed sub-objects and
an empty `fontesOrcamentarias` array. -/
def demoNormalized : Rec :=
  [("unidadeOrgao", .obj default_unidade_schema),
   ("orgaoEntidade", .obj default_orgao_schema),
   ("amparoLegal", .obj default_amparo_schema),
   ("unidadeSubRogada", .obj default_unidade_schema),
   ("orgaoSubRogado", .obj default_orgao_schema),
   ("fontesOrcamentarias", .arr [])]

/-- Witness for C8 at the concrete record `[]`. -/
theorem normalize_record_schema_idempotent_witness :
    normalize_record_schema [] = some demoNormalized ∧
    normalize_record_schema demoNormalized = some demoNormalized :=
  ⟨rfl, normalize_record_schema_idempotent [] demoNormalized rfl⟩

/-- Every key of `sub` is a key of the default schema `ds`. -/
def keysSubset (sub ds : Rec) : Bool :=
  sub.all fun kv => decide (kv.1 ∈ recKeys ds)

/-- A nested-field value of the shape the upstream API contract allows:
absent, `null`, or a sub-dict whose keys are drawn from the fixed leaf set. -/
def nestedValOk (ds : Rec) (v : Option JVal) : Bool :=
  match v with
  | none => true
  | some .null => true
  | some (.obj sub) => keysSubset sub ds
  | some _ => false

/-- One element of a well-shaped `fontesOrcamentarias` array. -/
def fonteElemOk (v : JVal) : Bool :=
  match v with
  | .null => true
  | .obj sub => keysSubset sub default_fonte_schema
  | _ => false

/-- A well-shaped `fontesOrcamentarias` value: absent, `null`, or a list of
well-shaped elements. -/
def fontesValOk (v : Option JVal) : Bool :=
  match v with
  | none => true
  | some .null => true
  | some (.arr xs) => xs.all fonteElemOk
  | some _ => false

/-- A record whose six fixed nested fields are each of the shape the
upstream API contract allows (the "optional fields" of the claim). -/
def wellShaped (r : Rec) : Bool :=
  fixedObjSchemas.all (fun p => nestedValOk p.2 (alistLookup r p.1)) &&
    fontesValOk (alistLookup r "fontesOrcamentarias")

/-- The record with the six fixed nested fields removed; two records agree
outside the optional fields iff their `eraseFixed` parts have equal key
sets. -/
def eraseFixed : Rec → Rec
  | [] => []
  | kv :: rest =>
    if kv.1 ∈ fixedFieldNames then eraseFixed rest else kv :: eraseFixed rest

theorem wellShaped_obj (r : Rec) (h : wellShaped r = true) :
    ∀ p ∈ fixedObjSchemas, nestedValOk p.2 (alistLookup r p.1) = true := by
  rw [wellShaped, Bool.and_eq_true, List.all_eq_true] at h
  exact h.1

theorem wellShaped_fontes (r : Rec) (h : wellShaped r = true) :
    fontesValOk (alistLookup r "fontesOrcamentarias") = true := by
  rw [wellShaped, Bool.and_eq_true] at h
  exact h.2

theorem mem_keys_exists {α : Type} (d : List (String × α)) (k : String) :
    k ∈ recKeys d ↔ ∃ v, (k, v) ∈ d := by
  rw [recKeys, List.mem_map]
  constructor
  · rintro ⟨⟨k0, v0⟩, hm, rfl⟩
    exact ⟨v0, hm⟩
  · rintro ⟨v, hv⟩
    exact ⟨(k, v), hv, rfl⟩

theorem keysSubset_spec (sub ds : Rec) (h : keysSubset sub ds = true) (k : String)
    (hk : k ∈ recKeys sub) : k ∈ recKeys ds := by
  rw [keysSubset, List.all_eq_true] at h
  obtain ⟨v, hv⟩ := (mem_keys_exists sub k).mp hk
  simpa using h (k, v) hv

theorem alistLookup_mem {α : Type} {d : List (String × α)} {k : String} {v : α}
    (h : alistLookup d k = some v) : (k, v) ∈ d := by
  induction d with
  | nil => simp [alistLookup] at h
  | cons p rest ih =>
    obtain ⟨k0, v0⟩ := p
    by_cases he : k0 = k
    · subst he
      simp [alistLookup] at h
      subst h
      exact List.mem_cons_self _ _
    · simp only [alistLookup, if_neg he] at h
      exact List.mem_cons_of_mem _ (ih h)

theorem normalizeNested_shape (ds : Rec) (f : String) (d d' : Rec)
    (h : normalizeNested ds f d = some d')
    (hok : nestedValOk ds (alistLookup d f) = true) :
    ∃ s, alistLookup d' f = some (.obj s) ∧
      (∀ k, k ∈ recKeys s ↔ k ∈ recKeys ds) := by
  simp only [normalizeNested] at h
  split at h
  · cases h; exact ⟨ds, alistLookup_set_self d f _, fun k => Iff.rfl⟩
  · cases h; exact ⟨ds, alistLookup_set_self d f _, fun k => Iff.rfl⟩
  · rename_i sub heq
    cases h
    refine ⟨fillDefaults ds sub, alistLookup_set_self d f _, fun k => ?_⟩
    rw [heq, nestedValOk] at hok
    rw [mem_keys_fillDefaults]
    constructor
    · rintro (hs | hs)
      · exact keysSubset_spec sub ds hok k hs
      · exact hs
    · exact Or.inr
  · rename_i t heq
    rw [heq] at hok
    simp [nestedValOk] at hok
  · cases h

theorem normalizeNested_default (ds : Rec) (f : String) (d d' : Rec)
    (h : normalizeNested ds f d = some d')
    (hl : alistLookup d f = none ∨ alistLookup d f = some .null) :
    alistLookup d' f = some (.obj ds) := by
  simp only [normalizeNested] at h
  rcases hl with hl | hl <;> rw [hl] at h <;> cases h <;>
    exact alistLookup_set_self d f _

theorem normalizeNested_preserves_leaf (ds : Rec) (f : String) (d d' sub : Rec)
    (k : String) (v : JVal) (h : normalizeNested ds f d = some d')
    (hl : alistLookup d f = some (.obj sub)) (hk : alistLookup sub k = some v) :
    ∃ s, alistLookup d' f = some (.obj s) ∧ alistLookup s k = some v := by
  simp only [normalizeNested, hl] at h
  cases h
  exact ⟨fillDefaults ds sub, alistLookup_set_self d f _,
    fill_lookup_some ds sub k v hk⟩

theorem normalizeNested_fills_leaf (ds : Rec) (f : String) (d d' sub : Rec)
    (k : String) (h : normalizeNested ds f d = some d')
    (hl : alistLookup d f = some (.obj sub)) (hk : alistLookup sub k = none) :
    ∃ s, alistLookup d' f = some (.obj s) ∧ alistLookup s k = alistLookup ds k := by
  simp only [normalizeNested, hl] at h
  cases h
  exact ⟨fillDefaults ds sub, alistLookup_set_self d f _,
    fill_lookup_none ds sub k hk⟩

theorem normalizeFonte_shape (x y : JVal) (h : normalizeFonte x = some y)
    (hok : fonteElemOk x = true) :
    ∃ s, y = .obj s ∧ (∀ k, k ∈ recKeys s ↔ k ∈ recKeys default_fonte_schema) := by
  cases x with
  | null =>
    simp only [normalizeFonte] at h
    cases h
    exact ⟨default_fonte_schema, rfl, fun k => Iff.rfl⟩
  | obj sub =>
    simp only [normalizeFonte] at h
    cases h
    refine ⟨fillDefaults default_fonte_schema sub, rfl, fun k => ?_⟩
    rw [fonteElemOk] at hok
    rw [mem_keys_fillDefaults]
    constructor
    · rintro (hs | hs)
      · exact keysSubset_spec sub default_fonte_schema hok k hs
      · exact hs
    · exact Or.inr
  | str t => simp [fonteElemOk] at hok
  | bool b => simp [fonteElemOk] at hok
  | num n => simp [fonteElemOk] at hok
  | arr xs => simp [fonteElemOk] at hok

theorem mapNormalizeFonte_shape (xs : List JVal) :
    ∀ ys, mapNormalizeFonte xs = some ys → xs.all fonteElemOk = true →
      ∀ y ∈ ys, ∃ s, y = .obj s ∧
        (∀ k, k ∈ recKeys s ↔ k ∈ recKeys default_fonte_schema) := by
  induction xs with
  | nil =>
    intro ys h _ y hy
    simp only [mapNormalizeFonte] at h
    cases h
    simp at hy
  | cons x rest ih =>
    intro ys h hall y hy
    rw [List.all_cons, Bool.and_eq_true] at hall
    simp only [mapNormalizeFonte] at h
    cases hx : normalizeFonte x with
    | none => rw [hx] at h; cases h
    | some g =>
      rw [hx] at h
      cases hr : mapNormalizeFonte rest with
      | none => rw [hr] at h; cases h
      | some gs =>
        rw [hr] at h
        cases h
        rcases List.mem_cons.mp hy with rfl | hy'
        · exact normalizeFonte_shape x y hx hall.1
        · exact ih gs hr hall.2 y hy'

theorem normalizeFontes_shape (d d' : Rec) (h : normalizeFontes d = some d')
    (hok : fontesValOk (alistLookup d "fontesOrcamentarias") = true) :
    ∃ ys, alistLookup d' "fontesOrcamentarias" = some (.arr ys) ∧
      ∀ y ∈ ys, ∃ s, y = .obj s ∧
        (∀ k, k ∈ recKeys s ↔ k ∈ recKeys default_fonte_schema) := by
  simp only [normalizeFontes] at h
  split at h
  · cases h
    exact ⟨[], alistLookup_set_self d _ _, by simp⟩
  · cases h
    exact ⟨[], alistLookup_set_self d _ _, by simp⟩
  · rename_i xs heq
    rw [heq] at hok
    cases hm : mapNormalizeFonte xs with
    | none => rw [hm] at h; cases h
    | some ys =>
      rw [hm] at h
      cases h
      refine ⟨ys, alistLookup_set_self d _ _, ?_⟩
      exact mapNormalizeFonte_shape xs ys hm (by simpa [fontesValOk] using hok)
  · rename_i t heq
    rw [heq] at hok
    simp [fontesValOk] at hok
  · rename_i o heq
    rw [heq] at hok
    simp [fontesValOk] at hok
  · cases h

theorem normalizeFontes_default (d d' : Rec) (h : normalizeFontes d = some d')
    (hl : alistLookup d "fontesOrcamentarias" = none ∨
      alistLookup d "fontesOrcamentarias" = some .null) :
    alistLookup d' "fontesOrcamentarias" = some (.arr []) := by
  simp only [normalizeFontes] at h
  rcases hl with hl | hl <;> rw [hl] at h <;> cases h <;>
    exact alistLookup_set_self d _ _

/-- The value of each fixed dict field just before and just after its own
normalization step: before, it equals the original record's value; after,
its value is what the final output carries. -/
theorem normalize_field_action (r d : Rec) (h : normalize_record_schema r = some d)
    (p : String × Rec) (hp : p ∈ fixedObjSchemas) :
    ∃ dIn dOut, alistLookup dIn p.1 = alistLookup r p.1 ∧
      normalizeNested p.2 p.1 dIn = some dOut ∧
      alistLookup d p.1 = alistLookup dOut p.1 := by
  obtain ⟨d1, d2, d3, d4, d5, h1, h2, h3, h4, h5, h6⟩ := normalize_chain r d h
  simp only [fixedObjSchemas, List.mem_cons, List.not_mem_nil, or_false] at hp
  rcases hp with rfl | rfl | rfl | rfl | rfl
  · refine ⟨r, d1, rfl, h1, ?_⟩
    rw [normalizeFontes_lookup_ne d5 d _ h6 (by decide),
      normalizeNested_lookup_ne _ _ d4 d5 _ h5 (by decide),
      normalizeNested_lookup_ne _ _ d3 d4 _ h4 (by decide),
      normalizeNested_lookup_ne _ _ d2 d3 _ h3 (by decide),
      normalizeNested_lookup_ne _ _ d1 d2 _ h2 (by decide)]
  · refine ⟨d1, d2, ?_, h2, ?_⟩
    · rw [normalizeNested_lookup_ne _ _ r d1 _ h1 (by decide)]
    · rw [normalizeFontes_lookup_ne d5 d _ h6 (by decide),
        normalizeNested_lookup_ne _ _ d4 d5 _ h5 (by decide),
        normalizeNested_lookup_ne _ _ d3 d4 _ h4 (by decide),
        normalizeNested_lookup_ne _ _ d2 d3 _ h3 (by decide)]
  · refine ⟨d2, d3, ?_, h3, ?_⟩
    · rw [normalizeNested_lookup_ne _ _ d1 d2 _ h2 (by decide),
        normalizeNested_lookup_ne _ _ r d1 _ h1 (by decide)]
    · rw [normalizeFontes_lookup_ne d5 d _ h6 (by decide),
        normalizeNested_lookup_ne _ _ d4 d5 _ h5 (by decide),
        normalizeNested_lookup_ne _ _ d3 d4 _ h4 (by decide)]
  · refine ⟨d3, d4, ?_, h4, ?_⟩
    · rw [normalizeNested_lookup_ne _ _ d2 d3 _ h3 (by decide),
        normalizeNested_lookup_ne _ _ d1 d2 _ h2 (by decide),
        normalizeNested_lookup_ne _ _ r d1 _ h1 (by decide)]
    · rw [normalizeFontes_lookup_ne d5 d _ h6 (by decide),
        normalizeNested_lookup_ne _ _ d4 d5 _ h5 (by decide)]
  · refine ⟨d4, d5, ?_, h5, ?_⟩
    · rw [normalizeNested_lookup_ne _ _ d3 d4 _ h4 (by decide),
        normalizeNested_lookup_ne _ _ d2 d3 _ h3 (by decide),
        normalizeNested_lookup_ne _ _ d1 d2 _ h2 (by decide),
        normalizeNested_lookup_ne _ _ r d1 _ h1 (by decide)]
    · rw [normalizeFontes_lookup_ne d5 d _ h6 (by decide)]

/-- The `fontesOrcamentarias` step sees the original record's value. -/
theorem normalize_fontes_action (r d : Rec) (h : normalize_record_schema r = some d) :
    ∃ dIn, alistLookup dIn "fontesOrcamentarias" =
        alistLookup r "fontesOrcamentarias" ∧
      normalizeFontes dIn = some d := by
  obtain ⟨d1, d2, d3, d4, d5, h1, h2, h3, h4, h5, h6⟩ := normalize_chain r d h
  refine ⟨d5, ?_, h6⟩
  rw [normalizeNested_lookup_ne _ _ d4 d5 _ h5 (by decide),
    normalizeNested_lookup_ne _ _ d3 d4 _ h4 (by decide),
    normalizeNested_lookup_ne _ _ d2 d3 _ h3 (by decide),
    normalizeNested_lookup_ne _ _ d1 d2 _ h2 (by decide),
    normalizeNested_lookup_ne _ _ r d1 _ h1 (by decide)]

/-- Key sets after normalization: the original keys plus the six fixed
field names. -/
theorem normalize_keys (r d : Rec) (h : normalize_record_schema r = some d)
    (k : String) :
    k ∈ recKeys d ↔ k ∈ recKeys r ∨ k ∈ fixedFieldNames := by
  obtain ⟨d1, d2, d3, d4, d5, h1, h2, h3, h4, h5, h6⟩ := normalize_chain r d h
  rw [normalizeFontes_keys d5 d h6 k,
    normalizeNested_keys _ _ d4 d5 h5 k,
    normalizeNested_keys _ _ d3 d4 h4 k,
    normalizeNested_keys _ _ d2 d3 h3 k,
    normalizeNested_keys _ _ d1 d2 h2 k,
    normalizeNested_keys _ _ r d1 h1 k]
  simp only [fixedFieldNames, List.mem_cons, List.not_mem_nil, or_false]
  tauto

theorem mem_keys_eraseFixed (r : Rec) (k : String) :
    k ∈ recKeys (eraseFixed r) ↔ k ∈ recKeys r ∧ ¬ k ∈ fixedFieldNames := by
  induction r with
  | nil => simp [eraseFixed, recKeys]
  | cons p rest ih =>
    obtain ⟨k0, v0⟩ := p
    by_cases h : k0 ∈ fixedFieldNames
    · rw [eraseFixed, if_pos h, ih]
      simp only [recKeys, List.map_cons, List.mem_cons]
      constructor
      · rintro ⟨hm, hf⟩
        exact ⟨Or.inr hm, hf⟩
      · rintro ⟨hm | hm, hf⟩
        · exact absurd (hm ▸ h) hf
        · exact ⟨hm, hf⟩
    · rw [eraseFixed, if_neg h]
      simp only [recKeys, List.map_cons, List.mem_cons]
      rw [recKeys] at ih
      constructor
      · rintro (rfl | hm2)
        · exact ⟨Or.inl rfl, h⟩
        · have := ih.mp hm2
          exact ⟨Or.inr this.1, this.2⟩
      · rintro ⟨hm | hm, hf⟩
        · exact Or.inl hm
        · exact Or.inr (ih.mpr ⟨hm, hf⟩)

theorem fixedSchemas_lookup_null : ∀ p ∈ fixedObjSchemas, ∀ k v,
    alistLookup p.2 k = some v → v = .null := by
  intro p hp k v h
  simp only [fixedObjSchemas, List.mem_cons, List.not_mem_nil, or_false] at hp
  rcases hp with rfl | rfl | rfl | rfl | rfl <;>
    simp only [default_unidade_schema, default_orgao_schema, default_amparo_schema,
      alistLookup] at h <;>
    split_ifs at h <;> simp_all

theorem default_schemas_null :
    (∀ kv ∈ default_unidade_schema, kv.2 = JVal.null) ∧
    (∀ kv ∈ default_orgao_schema, kv.2 = JVal.null) ∧
    (∀ kv ∈ default_amparo_schema, kv.2 = JVal.null) ∧
    (∀ kv ∈ default_fonte_schema, kv.2 = JVal.null) := by
  refine ⟨?_, ?_, ?_, ?_⟩
  · intro kv hkv
    simp only [default_unidade_schema, List.mem_cons, List.not_mem_nil, or_false] at hkv
    rcases hkv with rfl | rfl | rfl | rfl | rfl | rfl <;> rfl
  · intro kv hkv
    simp only [default_orgao_schema, List.mem_cons, List.not_mem_nil, or_false] at hkv
    rcases hkv with rfl | rfl | rfl | rfl <;> rfl
  · intro kv hkv
    simp only [default_amparo_schema, List.mem_cons, List.not_mem_nil, or_false] at hkv
    rcases hkv with rfl | rfl | rfl <;> rfl
  · intro kv hkv
    simp only [default_fonte_schema, List.mem_cons, List.not_mem_nil, or_false] at hkv
    rcases hkv with rfl | rfl | rfl | rfl <;> rfl

theorem fixedSchemas_all_null : ∀ p ∈ fixedObjSchemas, ∀ kv ∈ p.2, kv.2 = .null := by
  intro p hp
  simp only [fixedObjSchemas, List.mem_cons, List.not_mem_nil, or_false] at hp
  rcases hp with rfl | rfl | rfl | rfl | rfl
  · exact default_schemas_null.1
  · exact default_schemas_null.2.1
  · exact default_schemas_null.2.2.1
  · exact default_schemas_null.1
  · exact default_schemas_null.2.1

/-- **C1.**  For any two well-shaped input records that agree on their
non-optional part, `normalize_record_schema` returns records with
identical top-level key sets; every output carries the six fixed nested
fields, each dict field with exactly the fixed leaf-key set and each
`fontesOrcamentarias` element with exactly the fixed fonte leaf-key set;
absent or `null` sub-objects become the all-null default struct (empty list
for `fontesOrcamentarias`); present leaves keep their values and only the
missing leaves are filled in (with `null`). -/
theorem schema_normalizer_uniform_shape
    (r1 r2 n1 n2 : Rec)
    (h1 : wellShaped r1 = true) (_hws2 : wellShaped r2 = true)
    (hn1 : normalize_record_schema r1 = some n1)
    (hn2 : normalize_record_schema r2 = some n2)
    (hagree : ∀ k, k ∈ recKeys (eraseFixed r1) ↔ k ∈ recKeys (eraseFixed r2)) :
    (∀ k, k ∈ recKeys n1 ↔ k ∈ recKeys n2) ∧
    (∀ f ∈ fixedFieldNames, f ∈ recKeys n1) ∧
    (∀ p ∈ fixedObjSchemas, ∃ s, alistLookup n1 p.1 = some (.obj s) ∧
      (∀ k, k ∈ recKeys s ↔ k ∈ recKeys p.2)) ∧
    (∃ ys, alistLookup n1 "fontesOrcamentarias" = some (.arr ys) ∧
      ∀ y ∈ ys, ∃ s, y = .obj s ∧
        (∀ k, k ∈ recKeys s ↔ k ∈ recKeys default_fonte_schema)) ∧
    (∀ p ∈ fixedObjSchemas,
      (alistLookup r1 p.1 = none ∨ alistLookup r1 p.1 = some .null) →
      alistLookup n1 p.1 = some (.obj p.2)) ∧
    (∀ p ∈ fixedObjSchemas, ∀ kv ∈ p.2, kv.2 = JVal.null) ∧
    ((alistLookup r1 "fontesOrcamentarias" = none ∨
      alistLookup r1 "fontesOrcamentarias" = some .null) →
      alistLookup n1 "fontesOrcamentarias" = some (.arr [])) ∧
    (∀ p ∈ fixedObjSchemas, ∀ sub k v,
      alistLookup r1 p.1 = some (.obj sub) → alistLookup sub k = some v →
      ∃ s, alistLookup n1 p.1 = some (.obj s) ∧ alistLookup s k = some v) ∧
    (∀ p ∈ fixedObjSchemas, ∀ sub k,
      alistLookup r1 p.1 = some (.obj sub) → alistLookup sub k = none →
      k ∈ recKeys p.2 →
      ∃ s, alistLookup n1 p.1 = some (.obj s) ∧ alistLookup s k = some .null) := by
  refine ⟨?_, ?_, ?_, ?_, ?_, fixedSchemas_all_null, ?_, ?_, ?_⟩
  · intro k
    rw [normalize_keys r1 n1 hn1 k, normalize_keys r2 n2 hn2 k]
    by_cases hf : k ∈ fixedFieldNames
    · simp [hf]
    · have h := hagree k
      rw [mem_keys_eraseFixed, mem_keys_eraseFixed] at h
      simp only [hf, or_false]
      constructor
      · intro hm
        exact (h.mp ⟨hm, hf⟩).1
      · intro hm
        exact (h.mpr ⟨hm, hf⟩).1
  · intro f hf
    rw [normalize_keys r1 n1 hn1 f]
    exact Or.inr hf
  · intro p hp
    obtain ⟨dIn, dOut, hIn, hstep, hOut⟩ := normalize_field_action r1 n1 hn1 p hp
    have hok : nestedValOk p.2 (alistLookup dIn p.1) = true := by
      rw [hIn]; exact wellShaped_obj r1 h1 p hp
    obtain ⟨s, hs, hkeys⟩ := normalizeNested_shape p.2 p.1 dIn dOut hstep hok
    exact ⟨s, by rw [hOut]; exact hs, hkeys⟩
  · obtain ⟨dIn, hIn, hstep⟩ := normalize_fontes_action r1 n1 hn1
    have hok : fontesValOk (alistLookup dIn "fontesOrcamentarias") = true := by
      rw [hIn]; exact wellShaped_fontes r1 h1
    exact normalizeFontes_shape dIn n1 hstep hok
  · intro p hp hl
    obtain ⟨dIn, dOut, hIn, hstep, hOut⟩ := normalize_field_action r1 n1 hn1 p hp
    rw [hOut]
    exact normalizeNested_default p.2 p.1 dIn dOut hstep (by rw [hIn]; exact hl)
  · intro hl
    obtain ⟨dIn, hIn, hstep⟩ := normalize_fontes_action r1 n1 hn1
    exact normalizeFontes_default dIn n1 hstep (by rw [hIn]; exact hl)
  · intro p hp sub k v hl hk
    obtain ⟨dIn, dOut, hIn, hstep, hOut⟩ := normalize_field_action r1 n1 hn1 p hp
    obtain ⟨s, hs, hsk⟩ := normalizeNested_preserves_leaf p.2 p.1 dIn dOut sub k v
      hstep (by rw [hIn]; exact hl) hk
    exact ⟨s, by rw [hOut]; exact hs, hsk⟩
  · intro p hp sub k hl hk hmem
    obtain ⟨dIn, dOut, hIn, hstep, hOut⟩ := normalize_field_action r1 n1 hn1 p hp
    obtain ⟨s, hs, hsk⟩ := normalizeNested_fills_leaf p.2 p.1 dIn dOut sub k
      hstep (by rw [hIn]; exact hl) hk
    refine ⟨s, by rw [hOut]; exact hs, ?_⟩
    rw [mem_keys_iff_lookup_isSome] at hmem
    cases hv : alistLookup p.2 k with
    | none => rw [hv] at hmem; cases hmem
    | some w =>
      rw [hsk, hv, fixedSchemas_lookup_null p hp k w hv]

/-- A record carrying a non-optional field and an explicitly null
`unidadeOrgao`. -/
def demoRec1 : Rec := [("objetoCompra", .str "caneta"), ("unidadeOrgao", .null)]

/-- The same record without the optional field. -/
def demoRec2 : Rec := [("objetoCompra", .str "caneta")]

/-- Common normalization of `demoRec1` and `demoRec2`. -/
def demoNorm12 : Rec := ("objetoCompra", .str "caneta") :: demoNormalized

/-- Witness for C1: two records differing only in their optional fields
normalize to records with the same key sets. -/
theorem schema_normalizer_uniform_shape_witness :
    wellShaped demoRec1 = true ∧ wellShaped demoRec2 = true ∧
    normalize_record_schema demoRec1 = some demoNorm12 ∧
    normalize_record_schema demoRec2 = some demoNorm12 ∧
    (∀ k, k ∈ recKeys demoNorm12 ↔ k ∈ recKeys demoNorm12) :=
  ⟨rfl, rfl, rfl, rfl,
    (schema_normalizer_uniform_shape demoRec1 demoRec2 demoNorm12 demoNorm12
      rfl rfl rfl rfl (fun _ => Iff.rfl)).1⟩

/-! ## Harvester: `make_request` and `extract_page_data`

Embedding of `PNCPContractionsExtractor.make_request` (`src/extractor.py`,
lines 206-228) and `extract_page_data` (lines 252-271).  The HTTP request
of attempt `i` is modelled by an oracle `attempts : Nat → Except String
JVal` giving either the parsed JSON of a successful response or the
exception message of a transport failure
(`requests.exceptions.RequestException`).  The fixed
`delay_between_requests` sleep after a success and the request parameters
(dates, modality, page number) do not influence the control flow modelled
here.
-/

/-- Python truthiness of a JSON value (`if response`). -/
def pyTruthy : JVal → Bool
  | .null => false
  | .bool b => b
  | .num n => decide (n ≠ 0)
  | .str s => !s.isEmpty
  | .arr xs => !xs.isEmpty
  | .obj fs => !fs.isEmpty

/-- Python `'data' in response`: key membership for dicts, substring test
for strings, element equality for lists; `TypeError` (`none`) otherwise. -/
def pyContainsKey (v : JVal) (k : String) : Option Bool :=
  match v with
  | .obj fs => some (alistLookup fs k).isSome
  | .str s => some (strHasSub k s)
  | .arr xs => some (xs.any fun x => match x with | .str t => decide (t = k) | _ => false)
  | _ => none

/-- Python `len(x)` for strings, lists and dicts; `TypeError` otherwise. -/
def pyLen : JVal → Option Nat
  | .str s => some s.length
  | .arr xs => some xs.length
  | .obj fs => some fs.length
  | _ => none

/-- Trace of one `make_request` call: the returned JSON (`.ok`) or the
exception re-raised after the last attempt (`.error`), the number of
attempts performed, and the back-off sleeps `retry_delay * 2 ** attempt`
executed between failed attempts. -/
structure ReqTrace where
  result : Except String JVal
  attemptsMade : Nat
  backoffSleeps : List ℚ

/-- The `for attempt in range(max_retries)` loop of `make_request`,
written with the number of remaining loop iterations
(`fuel = max_retries - attempt`) as the structurally decreasing argument:
on a transport error, sleep `retry_delay * 2 ** attempt` and retry unless
this was the last allowed attempt (`attempt >= max_retries - 1`), in which
case the exception is re-raised.  If `max_retries = 0` the loop body never
runs and the Python function falls through returning `None` (modelled as
`.ok .null`). -/
def make_request_go (attempts : Nat → Except String JVal) (retryDelay : ℚ)
    (maxRetries : Nat) : Nat → Nat → ReqTrace
  | 0, _ => ⟨.ok .null, 0, []⟩
  | fuel + 1, attempt =>
    match attempts attempt with
    | .ok resp => ⟨.ok resp, 1, []⟩
    | .error e =>
      if attempt < maxRetries - 1 then
        let rest := make_request_go attempts retryDelay maxRetries fuel (attempt + 1)
        ⟨rest.result, rest.attemptsMade + 1,
          (retryDelay * 2 ^ attempt) :: rest.backoffSleeps⟩
      else ⟨.error e, 1, []⟩

/-- `PNCPContractionsExtractor.make_request`. -/
def make_request (attempts : Nat → Except String JVal) (retryDelay : ℚ)
    (maxRetries : Nat) : ReqTrace :=
  make_request_go attempts retryDelay maxRetries maxRetries 0

/-- `PNCPContractionsExtractor.extract_page_data`: the whole body is
wrapped in `try/except`, and the handler returns `([], 0)`; a `TypeError`
raised by `'data' in response` / `response['data']` / `len(data)` inside
the `try` is caught by the same handler. -/
def extract_page_data (attempts : Nat → Except String JVal) (retryDelay : ℚ)
    (maxRetries : Nat) : JVal × Nat :=
  match (make_request attempts retryDelay maxRetries).result with
  | .error _ => (.arr [], 0)
  | .ok resp =>
    if pyTruthy resp then
      match pyContainsKey resp "data" with
      | none => (.arr [], 0)
      | some false => (.arr [], 0)
      | some true =>
        match resp with
        | .obj fields =>
          match alistLookup fields "data" with
          | some dataVal =>
            match pyLen dataVal with
            | some n => (dataVal, n)
            | none => (.arr [], 0)
          | none => (.arr [], 0)
        | _ => (.arr [], 0)
    else (.arr [], 0)

theorem make_request_go_fail (attempts : Nat → Except String JVal)
    (retryDelay : ℚ) (maxRetries : Nat) (e : Nat → String)
    (hfail : ∀ i, i < maxRetries → attempts i = .error (e i)) :
    ∀ fuel attempt, maxRetries - attempt = fuel → attempt < maxRetries →
      (make_request_go attempts retryDelay maxRetries fuel attempt).result =
          .error (e (maxRetries - 1)) ∧
      (make_request_go attempts retryDelay maxRetries fuel attempt).attemptsMade =
          maxRetries - attempt ∧
      (make_request_go attempts retryDelay maxRetries fuel attempt).backoffSleeps =
          (List.range (maxRetries - 1 - attempt)).map
            (fun i => retryDelay * 2 ^ (attempt + i)) := by
  intro fuel
  induction fuel with
  | zero => intro attempt h hlt; omega
  | succ n ih =>
    intro attempt h hlt
    rw [make_request_go]
    rw [hfail attempt hlt]
    by_cases hlast : attempt < maxRetries - 1
    · simp only [if_pos hlast]
      obtain ⟨ih1, ih2, ih3⟩ := ih (attempt + 1) (by omega) (by omega)
      refine ⟨ih1, by rw [ih2]; omega, ?_⟩
      rw [ih3]
      have hr : maxRetries - 1 - attempt = (maxRetries - 1 - (attempt + 1)) + 1 := by
        omega
      rw [hr, List.range_succ_eq_map, List.map_cons, List.map_map]
      refine congrArg₂ List.cons (by rw [Nat.add_zero]) ?_
      refine List.map_congr_left fun i _ => ?_
      show retryDelay * 2 ^ (attempt + 1 + i) = retryDelay * 2 ^ (attempt + (i + 1))
      rw [show attempt + 1 + i = attempt + (i + 1) from by omega]
    · have hatt : attempt = maxRetries - 1 := by omega
      simp only [if_neg hlast]
      refine ⟨by rw [hatt], by omega, ?_⟩
      have : maxRetries - 1 - attempt = 0 := by omega
      rw [this]
      rfl

/-- **C3 (amended).**  When every attempt of a page request fails,
`make_request` performs exactly `max_retries` attempts, sleeping
`retry_delay * 2 ** attempt` between consecutive attempts, and re-raises
the final error; but `extract_page_data` — the page fetch whose result the
page workers consume — catches that error and hands its caller the empty
page result `([], 0)` instead of propagating it. -/
theorem make_request_retries_and_raises (attempts : Nat → Except String JVal)
    (retryDelay : ℚ) (maxRetries : Nat) (e : Nat → String)
    (hfail : ∀ i, i < maxRetries → attempts i = .error (e i))
    (hpos : 1 ≤ maxRetries) :
    (make_request attempts retryDelay maxRetries).result =
        .error (e (maxRetries - 1)) ∧
    (make_request attempts retryDelay maxRetries).attemptsMade = maxRetries ∧
    (make_request attempts retryDelay maxRetries).backoffSleeps =
        (List.range (maxRetries - 1)).map (fun i => retryDelay * 2 ^ i) ∧
    extract_page_data attempts retryDelay maxRetries = (.arr [], 0) := by
  obtain ⟨h1, h2, h3⟩ := make_request_go_fail attempts retryDelay maxRetries e hfail
    maxRetries 0 (by omega) (by omega)
  refine ⟨h1, by rw [make_request, h2]; omega, ?_, ?_⟩
  · rw [make_request, h3]
    simp
  · rw [extract_page_data, make_request]
    rw [h1]

/-- A page request that fails on every attempt. -/
def demoFailingAttempts : Nat → Except String JVal := fun _ => .error "timeout"

/-- **Counterexample to C3 as stated**: with `max_retries = 5` and every
attempt failing, `make_request` does raise, but the caller of the page
fetch receives the empty page `([], 0)` in place of the error — the final
failure does not propagate out of `extract_page_data`. -/
theorem page_fetch_error_swallowed :
    (make_request demoFailingAttempts 2 5).result = .error "timeout" ∧
    extract_page_data demoFailingAttempts 2 5 = (JVal.arr [], 0) :=
  ⟨rfl, rfl⟩

/-- Witness for the amended C3 at a concrete failing request. -/
theorem make_request_retries_and_raises_witness :
    (∀ i, i < 3 → demoFailingAttempts i = .error "timeout") ∧ 1 ≤ 3 ∧
    (make_request demoFailingAttempts 2 3).attemptsMade = 3 :=
  ⟨fun _ _ => rfl, by omega,
    (make_request_retries_and_raises demoFailingAttempts 2 3 (fun _ => "timeout")
      (fun _ _ => rfl) (by omega)).2.1⟩

/-! ## TextNormalizer (`FilterManager._normalize_text` / `_match_exact_word`)

Embedding of `src/filter_manager.py`, lines 74-99.  `unicodedata.normalize
+ drop Mn` is modelled for the Latin accented letters of the filter's
Portuguese domain; other characters decompose to themselves.  Python's
`str.lower` is modelled as ASCII lowering (accented upper-case letters are
first decomposed to their ASCII base by `stripAccent`).
-/

/-- NFD decomposition followed by dropping the combining mark, for the
Latin accented letters; identity elsewhere. -/
def stripAccent : Char → Char
  | 'á' | 'à' | 'â' | 'ã' | 'ä' => 'a'
  | 'Á' | 'À' | 'Â' | 'Ã' | 'Ä' => 'A'
  | 'é' | 'è' | 'ê' | 'ë' => 'e'
  | 'É' | 'È' | 'Ê' | 'Ë' => 'E'
  | 'í' | 'ì' | 'î' | 'ï' => 'i'
  | 'Í' | 'Ì' | 'Î' | 'Ï' => 'I'
  | 'ó' | 'ò' | 'ô' | 'õ' | 'ö' => 'o'
  | 'Ó' | 'Ò' | 'Ô' | 'Õ' | 'Ö' => 'O'
  | 'ú' | 'ù' | 'û' | 'ü' => 'u'
  | 'Ú' | 'Ù' | 'Û' | 'Ü' => 'U'
  | 'ç' => 'c'
  | 'Ç' => 'C'
  | 'ñ' => 'n'
  | 'Ñ' => 'N'
  | c => c

/-- A combining diacritical mark (category Mn, block U+0300-U+036F),
dropped by `_normalize_text`. -/
def isCombiningMark (c : Char) : Bool :=
  decide (0x300 ≤ c.toNat) && decide (c.toNat ≤ 0x36F)

/-- `FilterManager._normalize_text`: empty/falsy text maps to `""`;
otherwise strip accents (NFD, drop Mn) and lower-case. -/
def normalize_text (texto : String) : String :=
  if texto.data.isEmpty then ""
  else
    String.mk (((texto.data.map stripAccent).filter
      (fun c => !isCombiningMark c)).map Char.toLower)

/-- Python's regex `\w` (word character), restricted to ASCII
alphanumerics, underscore, and the accented Latin letters modelled by
`stripAccent`. -/
def isWordChar (c : Char) : Bool :=
  c.isAlphanum || c == '_' || decide (stripAccent c ≠ c)

/-- A `\b` word boundary between two adjacent characters (`none` at a
string edge): exactly one of the two sides is a word character. -/
def wordBoundary (a b : Option Char) : Bool :=
  (match a with | some c => isWordChar c | none => false) !=
    (match b with | some c => isWordChar c | none => false)

/-- The (escaped, hence literal) term matches at the current position,
with `\b` satisfied on both sides; `prev` is the character immediately
before the position. -/
def wbMatchAt (prev : Option Char) (hay needle : List Char) : Bool :=
  charsStartWith needle hay && wordBoundary prev needle.head? &&
    wordBoundary needle.getLast? (hay.drop needle.length).head?

/-- `re.search` of `\b<escaped termo>\b`: try each start position left
to right. -/
def wbSearch (needle : List Char) : Option Char → List Char → Bool
  | prev, [] => wbMatchAt prev [] needle
  | prev, c :: rest =>
    wbMatchAt prev (c :: rest) needle || wbSearch needle (some c) rest

/-- `FilterManager._match_exact_word`: empty term or empty text never
match; otherwise search the text for the term bounded by word boundaries
(`re.escape` makes the term literal). -/
def match_exact_word (texto termo : String) : Bool :=
  if termo.data.isEmpty || texto.data.isEmpty then false
  else wbSearch termo.data none texto.data

theorem charsStartWith_self (l : List Char) : charsStartWith l l = true := by
  induction l with
  | nil => rfl
  | cons c rest ih => simp [charsStartWith, ih]

/-- **Counterexample to C9 as stated**: `"-"` is a non-empty string, yet
`_match_exact_word("-", "-")` is `False` — `\b` requires a word character
on exactly one side, and `-` is not a word character. -/
theorem match_exact_word_self_fails :
    match_exact_word "-" "-" = false ∧ "-" ≠ "" := ⟨rfl, by decide⟩

/-- **C9 (amended).**  `_match_exact_word(t, t)` is true for every
non-empty `t` whose first and last characters are word characters; for a
`t` whose first or last character is a non-word character (e.g. `"-"`),
the pattern `\b t \b` has no word boundary at the edges, and the
matcher returns false even on `t` itself. -/
theorem match_exact_word_self (t : String) (c1 c2 : Char)
    (h1 : t.data.head? = some c1) (h2 : t.data.getLast? = some c2)
    (hw1 : isWordChar c1 = true) (hw2 : isWordChar c2 = true) :
    match_exact_word t t = true := by
  have hne : t.data ≠ [] := by
    intro h
    rw [h] at h1
    cases h1
  have hfalse : t.data.isEmpty = false := by
    cases hd : t.data with
    | nil => exact absurd hd hne
    | cons c rest => rfl
  rw [match_exact_word, hfalse]
  simp only [Bool.or_self, Bool.false_eq_true, if_false]
  cases hd : t.data with
  | nil => exact absurd hd hne
  | cons c rest =>
    rw [wbSearch]
    have hmatch : wbMatchAt none (c :: rest) (c :: rest) = true := by
      rw [wbMatchAt, charsStartWith_self]
      rw [hd] at h1 h2
      rw [List.head?_cons] at h1
      cases h1
      rw [List.drop_length]
      simp only [wordBoundary, h2, hw1, hw2, List.head?_cons, List.head?_nil]
      rfl
    rw [hmatch]
    rfl

/-- Witness for the amended C9 at `t = "caneta"`. -/
theorem match_exact_word_self_witness :
    ("caneta" : String).data.head? = some 'c' ∧
    ("caneta" : String).data.getLast? = some 'a' ∧
    isWordChar 'c' = true ∧ isWordChar 'a' = true ∧
    match_exact_word "caneta" "caneta" = true :=
  ⟨rfl, rfl, rfl, rfl, match_exact_word_self "caneta" 'c' 'a' rfl rfl rfl rfl⟩

/-! ## KeywordFilter (Stage 1, `FilterManager._apply_keyword_filter`)

Embedding of `src/filter_manager.py`, lines 183-236.  The group dictionary
`grupos_termos` is an insertion-ordered list of `(group, terms)` pairs.
`sorted(..., key=lambda x: len(x[0]), reverse=True)` is Python's stable
sort; it is modelled by stable insertion sort for the same total preorder
(the unique stable sort).  The statistics counters and log lines do not
influence the decision and are not modelled.
-/

/-- The decision of the Stage 1 scan: no match, a match on a group's own
name, or a match on a member term of a group (`detalhes['termo_matched']`
equals the group name exactly in the second case). -/
inductive KeywordMatch where
  | noMatch : KeywordMatch
  | groupName (grupo : String) : KeywordMatch
  | term (grupo termo : String) : KeywordMatch
deriving DecidableEq

/-- The inner `for termo in termos` loop: the first term whose
normalization is non-empty and matches as an exact word. -/
def findTermMatch (objNorm : String) : List String → Option String
  | [] => none
  | t :: ts =>
    if !(normalize_text t).data.isEmpty &&
        match_exact_word objNorm (normalize_text t) then some t
    else findTermMatch objNorm ts

/-- The outer `for grupo, termos in grupos_ordenados` loop: the group's
own (normalized, non-empty) name is tested as an exact word before its
member terms; the first match wins and short-circuits. -/
def scanGroups (objNorm : String) : List (String × List String) → KeywordMatch
  | [] => .noMatch
  | (g, ts) :: rest =>
    if !(normalize_text g).data.isEmpty &&
        match_exact_word objNorm (normalize_text g) then .groupName g
    else
      match findTermMatch objNorm ts with
      | some t => .term g t
      | none => scanGroups objNorm rest

/-- Stable insertion into a length-descending list: the new group goes
after every group whose name is at least as long (preserving original
order on ties). -/
def insertGroupDesc (x : String × List String) :
    List (String × List String) → List (String × List String)
  | [] => [x]
  | y :: ys =>
    if y.1.length ≤ x.1.length then x :: y :: ys else y :: insertGroupDesc x ys

/-- `sorted(self.grupos_termos.items(), key=lambda x: len(x[0]),
reverse=True)`: the stable length-descending reordering of the group
list. -/
def sortGroupsDesc : List (String × List String) → List (String × List String)
  | [] => []
  | x :: xs => insertGroupDesc x (sortGroupsDesc xs)

/-- `FilterManager._apply_keyword_filter`, decision part: normalize the
objective, order the groups by descending name length, scan. -/
def apply_keyword_filter (grupos : List (String × List String))
    (objetivo : String) : KeywordMatch :=
  scanGroups (normalize_text objetivo) (sortGroupsDesc grupos)

theorem insertGroupDesc_perm (x : String × List String)
    (l : List (String × List String)) : (insertGroupDesc x l).Perm (x :: l) := by
  induction l with
  | nil => exact List.Perm.refl _
  | cons y ys ih =>
    rw [insertGroupDesc]
    by_cases h : y.1.length ≤ x.1.length
    · rw [if_pos h]
    · rw [if_neg h]
      exact ((ih.cons y).trans (List.Perm.swap x y ys))

theorem sortGroupsDesc_perm (l : List (String × List String)) :
    (sortGroupsDesc l).Perm l := by
  induction l with
  | nil => exact List.Perm.refl _
  | cons x xs ih =>
    exact (insertGroupDesc_perm x (sortGroupsDesc xs)).trans (ih.cons x)

theorem mem_insertGroupDesc (x z : String × List String)
    (l : List (String × List String)) :
    z ∈ insertGroupDesc x l ↔ z = x ∨ z ∈ l := by
  rw [(insertGroupDesc_perm x l).mem_iff, List.mem_cons]

theorem pairwise_insertGroupDesc (x : String × List String)
    (l : List (String × List String))
    (h : List.Pairwise (fun a b => b.1.length ≤ a.1.length) l) :
    List.Pairwise (fun a b => b.1.length ≤ a.1.length) (insertGroupDesc x l) := by
  induction l with
  | nil => simp [insertGroupDesc]
  | cons y ys ih =>
    obtain ⟨hy, hys⟩ := List.pairwise_cons.mp h
    rw [insertGroupDesc]
    by_cases hc : y.1.length ≤ x.1.length
    · rw [if_pos hc]
      refine List.pairwise_cons.mpr ⟨?_, h⟩
      intro z hz
      rcases List.mem_cons.mp hz with rfl | hz'
      · exact hc
      · exact le_trans (hy z hz') hc
    · rw [if_neg hc]
      refine List.pairwise_cons.mpr ⟨?_, ih hys⟩
      intro z hz
      rcases (mem_insertGroupDesc x z ys).mp hz with rfl | hz'
      · omega
      · exact hy z hz'

theorem sortGroupsDesc_sorted (l : List (String × List String)) :
    List.Pairwise (fun a b => b.1.length ≤ a.1.length) (sortGroupsDesc l) := by
  induction l with
  | nil => exact List.Pairwise.nil
  | cons x xs ih => exact pairwise_insertGroupDesc x (sortGroupsDesc xs) ih

theorem findTermMatch_spec (objNorm : String) (t : String) :
    ∀ ts, findTermMatch objNorm ts = some t →
      t ∈ ts ∧ (normalize_text t).data.isEmpty = false ∧
        match_exact_word objNorm (normalize_text t) = true := by
  intro ts
  induction ts with
  | nil => intro h; cases h
  | cons t0 rest ih =>
    intro h
    rw [findTermMatch] at h
    by_cases hc : (!(normalize_text t0).data.isEmpty &&
        match_exact_word objNorm (normalize_text t0)) = true
    · rw [if_pos hc] at h
      cases h
      rw [Bool.and_eq_true, Bool.not_eq_eq_eq_not, Bool.not_true] at hc
      exact ⟨List.mem_cons_self _ rest, hc.1, hc.2⟩
    · rw [if_neg hc] at h
      obtain ⟨hm, he, hw⟩ := ih h
      exact ⟨List.mem_cons_of_mem t0 hm, he, hw⟩

theorem scanGroups_groupName_spec (objNorm g : String) :
    ∀ S, scanGroups objNorm S = .groupName g →
      (∃ ts, (g, ts) ∈ S) ∧ (normalize_text g).data.isEmpty = false ∧
        match_exact_word objNorm (normalize_text g) = true := by
  intro S
  induction S with
  | nil => intro h; cases h
  | cons p rest ih =>
    obtain ⟨g0, ts0⟩ := p
    intro h
    rw [scanGroups] at h
    by_cases hc : (!(normalize_text g0).data.isEmpty &&
        match_exact_word objNorm (normalize_text g0)) = true
    · rw [if_pos hc] at h
      cases h
      rw [Bool.and_eq_true, Bool.not_eq_eq_eq_not, Bool.not_true] at hc
      exact ⟨⟨ts0, List.mem_cons_self _ _⟩, hc.1, hc.2⟩
    · rw [if_neg hc] at h
      cases hf : findTermMatch objNorm ts0 with
      | some t => rw [hf] at h; cases h
      | none =>
        rw [hf] at h
        obtain ⟨⟨ts, hm⟩, he, hw⟩ := ih h
        exact ⟨⟨ts, List.mem_cons_of_mem _ hm⟩, he, hw⟩

theorem scanGroups_term_spec (objNorm g t : String) :
    ∀ S, scanGroups objNorm S = .term g t →
      (∃ ts, (g, ts) ∈ S ∧ t ∈ ts) ∧
      match_exact_word objNorm (normalize_text t) = true ∧
      ¬((normalize_text g).data.isEmpty = false ∧
        match_exact_word objNorm (normalize_text g) = true) := by
  intro S
  induction S with
  | nil => intro h; cases h
  | cons p rest ih =>
    obtain ⟨g0, ts0⟩ := p
    intro h
    rw [scanGroups] at h
    by_cases hc : (!(normalize_text g0).data.isEmpty &&
        match_exact_word objNorm (normalize_text g0)) = true
    · rw [if_pos hc] at h
      cases h
    · rw [if_neg hc] at h
      cases hf : findTermMatch objNorm ts0 with
      | some t0 =>
        rw [hf] at h
        cases h
        obtain ⟨hm, he, hw⟩ := findTermMatch_spec objNorm t ts0 hf
        refine ⟨⟨ts0, List.mem_cons_self _ _, hm⟩, hw, ?_⟩
        intro ⟨hg1, hg2⟩
        rw [Bool.and_eq_true, Bool.not_eq_eq_eq_not, Bool.not_true] at hc
        exact hc ⟨hg1, hg2⟩
      | none =>
        rw [hf] at h
        obtain ⟨⟨ts, hm, hmt⟩, hw, hng⟩ := ih h
        exact ⟨⟨ts, List.mem_cons_of_mem _ hm, hmt⟩, hw, hng⟩

/-- **C5.**  Stage 1 scans the groups in stable descending order of group
name length (a permutation of the dictionary, pairwise sorted); within the
scan the group's own name is tested before its member terms and the first
match short-circuits (a head group whose name matches wins outright); the
returned decision records the matched group and whether the match was the
group name itself or a member term (with the name having been tested, and
failed, in the member-term case). -/
theorem keyword_filter_order_and_priority
    (grupos : List (String × List String)) (objetivo : String)
    (_hobj : objetivo ≠ "") :
    (sortGroupsDesc grupos).Perm grupos ∧
    List.Pairwise (fun a b => b.1.length ≤ a.1.length) (sortGroupsDesc grupos) ∧
    apply_keyword_filter grupos objetivo =
      scanGroups (normalize_text objetivo) (sortGroupsDesc grupos) ∧
    (∀ g ts rest, sortGroupsDesc grupos = (g, ts) :: rest →
      (normalize_text g).data.isEmpty = false →
      match_exact_word (normalize_text objetivo) (normalize_text g) = true →
      apply_keyword_filter grupos objetivo = .groupName g) ∧
    (∀ g, apply_keyword_filter grupos objetivo = .groupName g →
      (∃ ts, (g, ts) ∈ grupos) ∧
      match_exact_word (normalize_text objetivo) (normalize_text g) = true) ∧
    (∀ g t, apply_keyword_filter grupos objetivo = .term g t →
      (∃ ts, (g, ts) ∈ grupos ∧ t ∈ ts) ∧
      match_exact_word (normalize_text objetivo) (normalize_text t) = true ∧
      ¬((normalize_text g).data.isEmpty = false ∧
        match_exact_word (normalize_text objetivo) (normalize_text g) = true)) := by
  refine ⟨sortGroupsDesc_perm grupos, sortGroupsDesc_sorted grupos, rfl, ?_, ?_, ?_⟩
  · intro g ts rest hS hne hmatch
    rw [apply_keyword_filter, hS, scanGroups, if_pos]
    rw [Bool.and_eq_true, Bool.not_eq_eq_eq_not, Bool.not_true]
    exact ⟨hne, hmatch⟩
  · intro g h
    obtain ⟨⟨ts, hm⟩, _, hw⟩ :=
      scanGroups_groupName_spec (normalize_text objetivo) g _ h
    exact ⟨⟨ts, (sortGroupsDesc_perm grupos).mem_iff.mp hm⟩, hw⟩
  · intro g t h
    obtain ⟨⟨ts, hm, hmt⟩, hw, hng⟩ :=
      scanGroups_term_spec (normalize_text objetivo) g t _ h
    exact ⟨⟨ts, (sortGroupsDesc_perm grupos).mem_iff.mp hm, hmt⟩, hw, hng⟩

/-- The illustrative group dictionary of the spec. -/
def demoGrupos : List (String × List String) :=
  [("CANETAS", ["caneta", "marcador"]), ("MATERIAL ESCOLAR", ["caneta"])]

/-- Witness for C5 at a concrete dictionary and objective. -/
theorem keyword_filter_order_and_priority_witness :
    ("Aquisição de canetas azuis" : String) ≠ "" ∧
    (sortGroupsDesc demoGrupos).Perm demoGrupos :=
  ⟨by decide,
    (keyword_filter_order_and_priority demoGrupos "Aquisição de canetas azuis"
      (by decide)).1⟩

/-! ## SemanticOracleClient (`src/llm_filter.py`)

Embedding of `LLMFilter`.  Wall-clock time (`datetime.now()` /
`time.time()`) is a `Nat` of seconds passed in by the caller; the OpenAI
chat-completion call is an oracle `Except String OracleRaw` (exception
text on transport failure, response text and token usage on success).
The md5 hex digest of the cache key is modelled by the normalized text
itself: the digest is a deterministic function of that text, and equality
of normalized texts — all the theorems below use — is preserved.
Floating-point fields (`response_time`, `total_cost_usd`,
`avg_response_time`) are omitted; `oracleCalls` is an instrumentation
counter recording each time the network request is reached (it is not a
Python statistic). -/

/-- `LLMResponse` (without the floating-point `response_time`). -/
structure LLMResponseM where
  decisao : String
  categoria : String
  confianca : Int
  justificativa : String
  tokensUsed : Nat
  cached : Bool
deriving DecidableEq

/-- One cache entry: `{'timestamp': ..., 'response': ...}`. -/
structure CacheEntryM where
  timestamp : Nat
  response : LLMResponseM
deriving DecidableEq

/-- The mutable state of an `LLMFilter` instance: session cache,
rate-limit window, statistics counters, plus the `oracleCalls`
instrumentation counter. -/
structure LLMState where
  cache : List (String × CacheEntryM)
  requestTimestamps : List Nat
  totalQueries : Nat
  aprovados : Nat
  rejeitados : Nat
  cacheHits : Nat
  cacheMisses : Nat
  totalTokens : Nat
  errors : Nat
  oracleCalls : Nat
deriving DecidableEq

/-- Configuration: cache TTL in hours (`cache_ttl_hours`) and the
rate-limit ceiling (carried; the sleeps it causes are not modelled). -/
structure LLMConfig where
  cacheTtlHours : Nat
  maxRequestsPerMinute : Nat
deriving DecidableEq

/-- Outcome of the OpenAI network call. -/
structure OracleRaw where
  text : String
  promptTokens : Nat
  completionTokens : Nat
  totalTokens : Nat
deriving DecidableEq

/-- The network call as seen by one `query_llm` invocation. -/
abbrev Oracle := Except String OracleRaw

/-- ASCII `str.lower`. -/
def asciiLower (s : String) : String := String.mk (s.data.map Char.toLower)

/-- ASCII `str.upper`. -/
def asciiUpper (s : String) : String := String.mk (s.data.map Char.toUpper)

/-- A character removed by Python's default `str.strip`. -/
def isPySpace (c : Char) : Bool :=
  c == ' ' || c == '\t' || c == '\n' || c == '\r' ||
    c == '\x0b' || c == '\x0c'

/-- Python `str.strip()`: drop leading and trailing whitespace. -/
def pyStrip (s : String) : String :=
  String.mk (((s.data.dropWhile isPySpace).reverse.dropWhile isPySpace).reverse)

/-- `LLMFilter._generate_cache_key`: `objetivo.lower().strip()` (the md5
digest of which is modelled by the normalized text itself). -/
def generate_cache_key (objetivo : String) : String :=
  pyStrip (asciiLower objetivo)

/-- `LLMFilter._is_cache_valid`: `now < entry_time + timedelta(hours=ttl)`. -/
def is_cache_valid (cfg : LLMConfig) (now : Nat) (e : CacheEntryM) : Bool :=
  decide (now < e.timestamp + cfg.cacheTtlHours * 3600)

/-- `LLMFilter._get_from_cache`: on a valid hit return the stored response
with `cached=True` and count a hit; on an expired entry delete it and
count a miss; on no entry count a miss. -/
def get_from_cache (cfg : LLMConfig) (now : Nat) (st : LLMState)
    (objetivo : String) : Option LLMResponseM × LLMState :=
  match alistLookup st.cache (generate_cache_key objetivo) with
  | some e =>
    if is_cache_valid cfg now e then
      (some {e.response with cached := true},
        {st with cacheHits := st.cacheHits + 1})
    else
      (none,
        {st with
          cache := alistErase st.cache (generate_cache_key objetivo),
          cacheMisses := st.cacheMisses + 1})
  | none => (none, {st with cacheMisses := st.cacheMisses + 1})

/-- `LLMFilter._save_to_cache`. -/
def save_to_cache (now : Nat) (st : LLMState) (objetivo : String)
    (resp : LLMResponseM) : LLMState :=
  {st with cache := alistSet st.cache (generate_cache_key objetivo) ⟨now, resp⟩}

/-- `LLMFilter._wait_for_rate_limit`, state part: drop window entries
older than 60 s and append the current instant (the sleeps are not
modelled — they do not change any state the claims observe). -/
def wait_for_rate_limit (now : Nat) (st : LLMState) : LLMState :=
  {st with requestTimestamps :=
    (st.requestTimestamps.filter fun ts => decide (now - ts < 60)) ++ [now]}

/-- The accumulating record of `_parse_llm_response`. -/
structure ParsedResp where
  decisao : String
  categoria : String
  confianca : Int
  justificativa : String
deriving DecidableEq

/-- One iteration of the `for line in lines` loop of
`_parse_llm_response`: strip the line, dispatch on the known tags
(unknown lines are ignored), with `int()` failure mapped to confidence 0. -/
def parseLine (acc : ParsedResp) (line : String) : ParsedResp :=
  let l := line.trim
  if l.startsWith "DECISAO:" || l.startsWith "DECISÃO:" then
    let dec := asciiUpper (((l.replace "DECISAO:" "").replace "DECISÃO:" "").trim)
    if dec = "APROVAR" ∨ dec = "REJEITAR" then {acc with decisao := dec} else acc
  else if l.startsWith "CATEGORIA:" then
    {acc with categoria := (l.replace "CATEGORIA:" "").trim}
  else if l.startsWith "CONFIANCA:" || l.startsWith "CONFIANÇA:" then
    let conf := String.trim
      (String.replace ((l.replace "CONFIANCA:" "").replace "CONFIANÇA:" "") "%" "")
    match conf.toInt? with
    | some n => {acc with confianca := n}
    | none => {acc with confianca := 0}
  else if l.startsWith "JUSTIFICATIVA:" then
    {acc with justificativa := (l.replace "JUSTIFICATIVA:" "").trim}
  else acc

/-- `LLMFilter._parse_llm_response`: fold over the lines starting from the
conservative default (REJEITAR, confidence 0), then the documented
inconsistency repair: REJEITAR with confidence 0 whose justification
mentions qualification keywords is flipped to APROVAR with confidence 85. -/
def parse_llm_response (responseText : String) : ParsedResp :=
  let lines := responseText.trim.splitOn "
"
  let parsed := lines.foldl parseLine ⟨"REJEITAR", "", 0, ""⟩
  let jl := asciiLower parsed.justificativa
  if parsed.decisao = "REJEITAR" ∧ parsed.confianca = 0 ∧
      (strHasSub "se enquadra" jl = true ∨
        strHasSub "materiais educacionais" jl = true) then
    {parsed with decisao := "APROVAR", confianca := 85}
  else parsed

/-- `LLMFilter.query_llm`: cache first; on a miss count the query, pass
the rate limiter, and perform the network call inside `try/except` — a
transport error increments the error counter and yields a conservative
REJECT response with zero tokens and the error text as justification
(nothing is cached); a success is parsed, counted, and saved to the
cache. -/
def query_llm (cfg : LLMConfig) (oracle : Oracle) (now : Nat) (st : LLMState)
    (objetivo : String) : LLMResponseM × LLMState :=
  match get_from_cache cfg now st objetivo with
  | (some resp, st1) => (resp, st1)
  | (none, st1) =>
    let st2 := {st1 with totalQueries := st1.totalQueries + 1}
    let st3 := wait_for_rate_limit now st2
    let st4 := {st3 with oracleCalls := st3.oracleCalls + 1}
    match oracle with
    | .error e =>
      ({decisao := "REJEITAR", categoria := "", confianca := 0,
        justificativa := "Erro na análise LLM: " ++ e, tokensUsed := 0,
        cached := false},
       {st4 with errors := st4.errors + 1})
    | .ok raw =>
      let parsed := parse_llm_response raw.text
      let resp : LLMResponseM :=
        {decisao := parsed.decisao, categoria := parsed.categoria,
         confianca := parsed.confianca, justificativa := parsed.justificativa,
         tokensUsed := raw.totalTokens, cached := false}
      let st5 :=
        if resp.decisao = "APROVAR" then
          {st4 with aprovados := st4.aprovados + 1}
        else {st4 with rejeitados := st4.rejeitados + 1}
      let st6 := {st5 with totalTokens := st5.totalTokens + raw.totalTokens}
      (resp, save_to_cache now st6 objetivo resp)

/-- The degraded response of `query_llm`'s error path. -/
def errResp (e : String) : LLMResponseM :=
  {decisao := "REJEITAR", categoria := "", confianca := 0,
   justificativa := "Erro na análise LLM: " ++ e, tokensUsed := 0,
   cached := false}

/-- The state produced by `query_llm`'s error path. -/
def errState (cfg : LLMConfig) (now : Nat) (st : LLMState)
    (objetivo : String) : LLMState :=
  let st1 := (get_from_cache cfg now st objetivo).2
  let st2 := {st1 with totalQueries := st1.totalQueries + 1}
  let st3 := wait_for_rate_limit now st2
  let st4 := {st3 with oracleCalls := st3.oracleCalls + 1}
  {st4 with errors := st4.errors + 1}

/-- The response of `query_llm`'s success path. -/
def successResp (raw : OracleRaw) : LLMResponseM :=
  let parsed := parse_llm_response raw.text
  {decisao := parsed.decisao, categoria := parsed.categoria,
   confianca := parsed.confianca, justificativa := parsed.justificativa,
   tokensUsed := raw.totalTokens, cached := false}

/-- The state produced by `query_llm`'s success path. -/
def successState (cfg : LLMConfig) (now : Nat) (st : LLMState)
    (objetivo : String) (raw : OracleRaw) : LLMState :=
  let st1 := (get_from_cache cfg now st objetivo).2
  let st2 := {st1 with totalQueries := st1.totalQueries + 1}
  let st3 := wait_for_rate_limit now st2
  let st4 := {st3 with oracleCalls := st3.oracleCalls + 1}
  let resp := successResp raw
  let st5 :=
    if resp.decisao = "APROVAR" then {st4 with aprovados := st4.aprovados + 1}
    else {st4 with rejeitados := st4.rejeitados + 1}
  let st6 := {st5 with totalTokens := st5.totalTokens + raw.totalTokens}
  save_to_cache now st6 objetivo resp

theorem query_llm_error_eq (cfg : LLMConfig) (now : Nat) (st : LLMState)
    (objetivo e : String)
    (hmiss : (get_from_cache cfg now st objetivo).1 = none) :
    query_llm cfg (.error e) now st objetivo =
      (errResp e, errState cfg now st objetivo) := by
  have hg : get_from_cache cfg now st objetivo =
      (none, (get_from_cache cfg now st objetivo).2) := by
    rw [← hmiss]
  rw [query_llm, hg]
  rfl

theorem query_llm_ok_eq (cfg : LLMConfig) (now : Nat) (st : LLMState)
    (objetivo : String) (raw : OracleRaw)
    (hmiss : (get_from_cache cfg now st objetivo).1 = none) :
    query_llm cfg (.ok raw) now st objetivo =
      (successResp raw, successState cfg now st objetivo raw) := by
  have hg : get_from_cache cfg now st objetivo =
      (none, (get_from_cache cfg now st objetivo).2) := by
    rw [← hmiss]
  rw [query_llm, hg]
  rfl

theorem query_llm_hit_eq (cfg : LLMConfig) (oracle : Oracle) (now : Nat)
    (st : LLMState) (objetivo : String) (e : CacheEntryM)
    (hl : alistLookup st.cache (generate_cache_key objetivo) = some e)
    (hv : is_cache_valid cfg now e = true) :
    query_llm cfg oracle now st objetivo =
      ({e.response with cached := true},
        {st with cacheHits := st.cacheHits + 1}) := by
  simp only [query_llm, get_from_cache, hl, hv, if_true]

theorem alistLookup_erase_self_nodup {α : Type} (d : List (String × α))
    (k : String) (hnd : (recKeys d).Nodup) :
    alistLookup (alistErase d k) k = none := by
  induction d with
  | nil => rfl
  | cons p rest ih =>
    obtain ⟨k0, v0⟩ := p
    rw [recKeys, List.map_cons, List.nodup_cons] at hnd
    by_cases h0 : k0 = k
    · subst h0
      rw [alistErase, if_pos rfl]
      cases hl : alistLookup rest k0 with
      | none => rfl
      | some v =>
        have hm : k0 ∈ recKeys rest := by
          rw [mem_keys_iff_lookup_isSome, hl]; rfl
        exact absurd hm hnd.1
    · rw [alistErase, if_neg h0, alistLookup_cons, if_neg h0]
      exact ih hnd.2

theorem get_from_cache_lookup_none (cfg : LLMConfig) (now : Nat)
    (st : LLMState) (objetivo : String)
    (hl : alistLookup st.cache (generate_cache_key objetivo) = none) :
    get_from_cache cfg now st objetivo =
      (none, {st with cacheMisses := st.cacheMisses + 1}) := by
  rw [get_from_cache, hl]

theorem get_from_cache_miss_fields (cfg : LLMConfig) (now : Nat)
    (st : LLMState) (objetivo : String)
    (hmiss : (get_from_cache cfg now st objetivo).1 = none) :
    ((get_from_cache cfg now st objetivo).2).errors = st.errors ∧
    ((get_from_cache cfg now st objetivo).2).oracleCalls = st.oracleCalls ∧
    ((get_from_cache cfg now st objetivo).2).cacheHits = st.cacheHits := by
  cases hl : alistLookup st.cache (generate_cache_key objetivo) with
  | none =>
    rw [get_from_cache_lookup_none cfg now st objetivo hl]
    exact ⟨rfl, rfl, rfl⟩
  | some e =>
    by_cases hv : is_cache_valid cfg now e = true
    · exfalso
      simp only [get_from_cache, hl] at hmiss
      rw [if_pos hv] at hmiss
      simp at hmiss
    · simp only [get_from_cache, hl]
      rw [if_neg hv]
      exact ⟨rfl, rfl, rfl⟩

theorem get_from_cache_miss_key_gone (cfg : LLMConfig) (now : Nat)
    (st : LLMState) (objetivo : String)
    (hmiss : (get_from_cache cfg now st objetivo).1 = none)
    (hnd : (recKeys st.cache).Nodup) :
    alistLookup ((get_from_cache cfg now st objetivo).2).cache
      (generate_cache_key objetivo) = none := by
  cases hl : alistLookup st.cache (generate_cache_key objetivo) with
  | none =>
    rw [get_from_cache_lookup_none cfg now st objetivo hl]
    exact hl
  | some e =>
    by_cases hv : is_cache_valid cfg now e = true
    · exfalso
      simp only [get_from_cache, hl] at hmiss
      rw [if_pos hv] at hmiss
      simp at hmiss
    · simp only [get_from_cache, hl]
      rw [if_neg hv]
      exact alistLookup_erase_self_nodup st.cache _ hnd

theorem get_from_cache_other_keys (cfg : LLMConfig) (now : Nat)
    (st : LLMState) (objetivo : String) (k : String)
    (hk : k ≠ generate_cache_key objetivo) :
    alistLookup ((get_from_cache cfg now st objetivo).2).cache k =
      alistLookup st.cache k := by
  cases hl : alistLookup st.cache (generate_cache_key objetivo) with
  | none => rw [get_from_cache, hl]
  | some e =>
    by_cases hv : is_cache_valid cfg now e = true
    · simp only [get_from_cache, hl]
      rw [if_pos hv]
    · simp only [get_from_cache, hl]
      rw [if_neg hv]
      exact alistLookup_erase_ne st.cache _ k (Ne.symm hk)

/-- **C4.**  On any transport/parse error of the oracle call (and a cache
miss, without which no call is made), `query_llm` does not raise — it is a
total function here — and returns the conservative REJECT response with
zero tokens and the error text as justification, incrementing the error
counter. -/
theorem query_llm_error_policy (cfg : LLMConfig) (now : Nat) (st : LLMState)
    (objetivo e : String)
    (hmiss : (get_from_cache cfg now st objetivo).1 = none) :
    (query_llm cfg (.error e) now st objetivo).1 = errResp e ∧
    (query_llm cfg (.error e) now st objetivo).1.decisao = "REJEITAR" ∧
    (query_llm cfg (.error e) now st objetivo).1.tokensUsed = 0 ∧
    (query_llm cfg (.error e) now st objetivo).1.justificativa =
      "Erro na análise LLM: " ++ e ∧
    (query_llm cfg (.error e) now st objetivo).2.errors = st.errors + 1 := by
  obtain ⟨he, _, _⟩ := get_from_cache_miss_fields cfg now st objetivo hmiss
  rw [query_llm_error_eq cfg now st objetivo e hmiss]
  refine ⟨rfl, rfl, rfl, rfl, ?_⟩
  show ((get_from_cache cfg now st objetivo).2).errors + 1 = st.errors + 1
  rw [he]

/-- Witness for C4 at a concrete empty cache and failing oracle. -/
def emptyLLMState : LLMState := ⟨[], [], 0, 0, 0, 0, 0, 0, 0, 0⟩

/-- The configuration used by the concrete witnesses: 24 h TTL, 60
requests/minute. -/
def demoLLMConfig : LLMConfig := ⟨24, 60⟩

theorem query_llm_error_policy_witness :
    (get_from_cache demoLLMConfig 0 emptyLLMState "caneta").1 = none ∧
    (query_llm demoLLMConfig (.error "timeout") 0 emptyLLMState "caneta").1 =
      errResp "timeout" :=
  ⟨rfl, (query_llm_error_policy demoLLMConfig 0 emptyLLMState "caneta" "timeout"
    rfl).1⟩

/-- **C10.**  On the error path the degraded REJECT response is not
written to the cache: if the key had no entry the cache is unchanged;
in every case (given the dict invariant of unique keys) the key is
uncached afterwards, so a later call with the same normalized text
attempts the oracle again; entries for other keys are untouched. -/
theorem query_llm_error_no_cache_write (cfg : LLMConfig) (now : Nat)
    (st : LLMState) (objetivo e : String)
    (hmiss : (get_from_cache cfg now st objetivo).1 = none)
    (hnd : (recKeys st.cache).Nodup) :
    (alistLookup st.cache (generate_cache_key objetivo) = none →
      (query_llm cfg (.error e) now st objetivo).2.cache = st.cache) ∧
    alistLookup ((query_llm cfg (.error e) now st objetivo).2).cache
      (generate_cache_key objetivo) = none ∧
    (∀ k, k ≠ generate_cache_key objetivo →
      alistLookup ((query_llm cfg (.error e) now st objetivo).2).cache k =
        alistLookup st.cache k) := by
  rw [query_llm_error_eq cfg now st objetivo e hmiss]
  refine ⟨?_, ?_, ?_⟩
  · intro hl
    show ((get_from_cache cfg now st objetivo).2).cache = st.cache
    rw [get_from_cache_lookup_none cfg now st objetivo hl]
  · show alistLookup ((get_from_cache cfg now st objetivo).2).cache
      (generate_cache_key objetivo) = none
    exact get_from_cache_miss_key_gone cfg now st objetivo hmiss hnd
  · intro k hk
    show alistLookup ((get_from_cache cfg now st objetivo).2).cache k =
      alistLookup st.cache k
    exact get_from_cache_other_keys cfg now st objetivo k hk

theorem query_llm_error_no_cache_write_witness :
    (get_from_cache demoLLMConfig 0 emptyLLMState "caneta").1 = none ∧
    (recKeys emptyLLMState.cache).Nodup ∧
    ((alistLookup emptyLLMState.cache (generate_cache_key "caneta") = none →
      (query_llm demoLLMConfig (.error "timeout") 0 emptyLLMState
        "caneta").2.cache = emptyLLMState.cache)) :=
  ⟨rfl, List.nodup_nil,
    (query_llm_error_no_cache_write demoLLMConfig 0 emptyLLMState "caneta"
      "timeout" rfl List.nodup_nil).1⟩

theorem successState_cache (cfg : LLMConfig) (now : Nat) (st : LLMState)
    (objetivo : String) (raw : OracleRaw) :
    (successState cfg now st objetivo raw).cache =
      alistSet ((get_from_cache cfg now st objetivo).2).cache
        (generate_cache_key objetivo) ⟨now, successResp raw⟩ := by
  by_cases hc : (successResp raw).decisao = "APROVAR" <;>
    simp [successState, save_to_cache, wait_for_rate_limit, hc]

theorem successState_oracleCalls (cfg : LLMConfig) (now : Nat) (st : LLMState)
    (objetivo : String) (raw : OracleRaw) :
    (successState cfg now st objetivo raw).oracleCalls =
      ((get_from_cache cfg now st objetivo).2).oracleCalls + 1 := by
  by_cases hc : (successResp raw).decisao = "APROVAR" <;>
    simp [successState, save_to_cache, wait_for_rate_limit, hc]

theorem successState_cacheHits (cfg : LLMConfig) (now : Nat) (st : LLMState)
    (objetivo : String) (raw : OracleRaw) :
    (successState cfg now st objetivo raw).cacheHits =
      ((get_from_cache cfg now st objetivo).2).cacheHits := by
  by_cases hc : (successResp raw).decisao = "APROVAR" <;>
    simp [successState, save_to_cache, wait_for_rate_limit, hc]

/-- **C7.**  Two successive `query_llm` calls whose objectives have the
same cache key, the second within the TTL of the first: exactly one
oracle network call is made (by the first call, which stores its parsed
response);  the second call returns the stored response with
`cached=true`, makes no network call, leaves the cache unchanged and
counts a cache hit. -/
theorem query_llm_cache_round_trip (cfg : LLMConfig) (raw : OracleRaw)
    (oracle2 : Oracle) (now1 now2 : Nat) (st : LLMState) (obj1 obj2 : String)
    (hl : alistLookup st.cache (generate_cache_key obj1) = none)
    (hkey : generate_cache_key obj2 = generate_cache_key obj1)
    (httl : now2 < now1 + cfg.cacheTtlHours * 3600) :
    (query_llm cfg (.ok raw) now1 st obj1).2.oracleCalls = st.oracleCalls + 1 ∧
    (query_llm cfg oracle2 now2
        (query_llm cfg (.ok raw) now1 st obj1).2 obj2).2.oracleCalls =
      (query_llm cfg (.ok raw) now1 st obj1).2.oracleCalls ∧
    (query_llm cfg (.ok raw) now1 st obj1).1.cached = false ∧
    (query_llm cfg oracle2 now2
        (query_llm cfg (.ok raw) now1 st obj1).2 obj2).1 =
      {(query_llm cfg (.ok raw) now1 st obj1).1 with cached := true} ∧
    (query_llm cfg oracle2 now2
        (query_llm cfg (.ok raw) now1 st obj1).2 obj2).2.cache =
      (query_llm cfg (.ok raw) now1 st obj1).2.cache ∧
    (query_llm cfg oracle2 now2
        (query_llm cfg (.ok raw) now1 st obj1).2 obj2).2.cacheHits =
      (query_llm cfg (.ok raw) now1 st obj1).2.cacheHits + 1 := by
  have hmiss : (get_from_cache cfg now1 st obj1).1 = none := by
    rw [get_from_cache_lookup_none cfg now1 st obj1 hl]
  have h1 := query_llm_ok_eq cfg now1 st obj1 raw hmiss
  have hget : (get_from_cache cfg now1 st obj1).2 =
      {st with cacheMisses := st.cacheMisses + 1} := by
    rw [get_from_cache_lookup_none cfg now1 st obj1 hl]
  have hcache1 : (query_llm cfg (.ok raw) now1 st obj1).2.cache =
      alistSet st.cache (generate_cache_key obj1) ⟨now1, successResp raw⟩ := by
    rw [h1]
    rw [successState_cache, hget]
  have hlook2 : alistLookup (query_llm cfg (.ok raw) now1 st obj1).2.cache
      (generate_cache_key obj2) = some ⟨now1, successResp raw⟩ := by
    rw [hcache1, hkey]
    exact alistLookup_set_self st.cache _ _
  have hvalid : is_cache_valid cfg now2 ⟨now1, successResp raw⟩ = true := by
    rw [is_cache_valid]
    exact decide_eq_true httl
  have h2 := query_llm_hit_eq cfg oracle2 now2
    (query_llm cfg (.ok raw) now1 st obj1).2 obj2 ⟨now1, successResp raw⟩
    hlook2 hvalid
  refine ⟨?_, ?_, ?_, ?_, ?_, ?_⟩
  · rw [h1]
    rw [successState_oracleCalls, hget]
  · rw [h2]
  · rw [h1]
    rfl
  · rw [h2, h1]
  · rw [h2]
  · rw [h2]

/-- A concrete successful oracle reply. -/
def demoRaw : OracleRaw :=
  ⟨"DECISAO: APROVAR\nCATEGORIA: CANETAS\nCONFIANCA: 90%\nJUSTIFICATIVA: ok",
   100, 20, 120⟩

theorem query_llm_cache_round_trip_witness :
    alistLookup emptyLLMState.cache (generate_cache_key "Caneta azul") = none ∧
    generate_cache_key "caneta AZUL  " = generate_cache_key "Caneta azul" ∧
    (10 : Nat) < 0 + demoLLMConfig.cacheTtlHours * 3600 ∧
    (query_llm demoLLMConfig (.ok demoRaw) 0 emptyLLMState
      "Caneta azul").2.oracleCalls = emptyLLMState.oracleCalls + 1 :=
  ⟨rfl, rfl, by decide,
    (query_llm_cache_round_trip demoLLMConfig demoRaw (.error "down") 0 10
      emptyLLMState "Caneta azul" "caneta AZUL  " rfl rfl (by decide)).1⟩

/-! ## FilterPipeline (`FilterManager.should_include_record`)

Embedding of `src/filter_manager.py`, lines 101-181, over the Stage 1
scan and the `LLMFilter` model.  The `detalhes` dicts are modelled as a
structure of optional fields (a key absent from the Python dict is
`none`); the truncated `objetivo_compra` echo field and the log lines are
omitted.  The `try/except` around Stage 2 corresponds to the `none`
("raised") outcome of the Stage 2 call: on it, the manager falls back to
the Stage 1 decision.  `query_llm` converts oracle failures into ordinary
REJECT responses, so with the modelled `LLMFilter` that fallback is
reachable only through the impossible re-extraction mismatch — mirroring
the source, where `llm_filter.should_include_record` never raises on a
transport error. -/

/-- The `detalhes` dict returned by the filter pipeline. -/
structure Detalhes where
  grupoMatched : Option String
  termoMatched : Option String
  criterio : Option String
  etapa : Option Nat
  filtroHibrido : Option Bool
  llmDisponivel : Option Bool
  filtroEtapa1Motivo : Option String
  filtroEtapa2Motivo : Option String
  llmDecisao : Option String
  llmConfianca : Option Int
  llmJustificativa : Option String
  llmTokensUsed : Option Nat
  llmCached : Option Bool
deriving DecidableEq

/-- The empty `detalhes` dict `{}`. -/
def emptyDetalhes : Detalhes :=
  ⟨none, none, none, none, none, none, none, none, none, none, none, none, none⟩

/-- `FilterManager._apply_keyword_filter` with its tuple result
`(aprovado, motivo, detalhes)`, built from the decision of the scan. -/
def apply_keyword_filter_full (grupos : List (String × List String))
    (objetivo : String) : Bool × String × Detalhes :=
  match apply_keyword_filter grupos objetivo with
  | .groupName g =>
    (true, "Match com grupo '" ++ g ++ "'",
      {emptyDetalhes with
        grupoMatched := some g,
        termoMatched := some g,
        criterio := some ("Nome do grupo \"" ++ g ++ "\" (palavra exata)"),
        etapa := some 1})
  | .term g t =>
    (true, "Match com termo '" ++ t ++ "' do grupo '" ++ g ++ "'",
      {emptyDetalhes with
        grupoMatched := some g,
        termoMatched := some t,
        criterio := some ("Termo \"" ++ t ++ "\" do grupo \"" ++ g ++
          "\" (palavra exata)"),
        etapa := some 1})
  | .noMatch =>
    (false, "Nenhum termo correspondente encontrado",
      {emptyDetalhes with etapa := some 1})

/-- `record.get('objetoCompra', '')` as used by both filters: a missing
key or a falsy value fails the `if not objetivo_compra` test exactly like
`''`; a truthy non-string value would make `_normalize_text` raise a
`TypeError` downstream (modelled as `none`). -/
def objetoCompraOf (record : Rec) : Option String :=
  match alistLookup record "objetoCompra" with
  | none => some ""
  | some .null => some ""
  | some (.str s) => some s
  | some (.bool b) => if b then none else some ""
  | some (.num n) => if n = 0 then some "" else none
  | some (.arr xs) => if xs.isEmpty then some "" else none
  | some (.obj fs) => if fs.isEmpty then some "" else none

/-- The Stage 1 context dict handed to Stage 2 (it only parameterizes the
prompt, which is subsumed in the oracle outcome). -/
structure LLMContext where
  grupoMatched : String
  termoMatched : String
  criterio : String
  etapa1Motivo : String
deriving DecidableEq

/-- `LLMFilter.should_include_record`: reject an empty objective without
consulting the oracle; otherwise the decision is `decisao == 'APROVAR'`
of the (possibly cached, possibly degraded) `query_llm` response. -/
def llm_should_include_record (cfg : LLMConfig) (oracle : Oracle) (now : Nat)
    (st : LLMState) (record : Rec) (_context : LLMContext) :
    Option ((Bool × String × Detalhes) × LLMState) :=
  match objetoCompraOf record with
  | none => none
  | some objetivo =>
    if objetivo.data.isEmpty then
      some ((false, "objetoCompra vazio", emptyDetalhes), st)
    else
      let p := query_llm cfg oracle now st objetivo
      some ((decide (p.1.decisao = "APROVAR"),
        "LLM " ++ p.1.decisao ++ " (confiança: " ++ toString p.1.confianca ++ "%)",
        {emptyDetalhes with
          llmDecisao := some p.1.decisao,
          llmConfianca := some p.1.confianca,
          llmJustificativa := some p.1.justificativa,
          llmTokensUsed := some p.1.tokensUsed,
          llmCached := some p.1.cached}), p.2)

/-- `{**etapa1_detalhes, **etapa2_detalhes, 'filtro_etapa1_motivo': ...,
'filtro_etapa2_motivo': ..., 'filtro_hibrido': True}`: the Stage 2 dict
only carries the `llm_*` keys, so the merge keeps Stage 1's match fields
and adds Stage 2's. -/
def mergeDetalhes (d1 d2 : Detalhes) (m1 m2 : String) : Detalhes :=
  {d1 with
    llmDecisao := d2.llmDecisao,
    llmConfianca := d2.llmConfianca,
    llmJustificativa := d2.llmJustificativa,
    llmTokensUsed := d2.llmTokensUsed,
    llmCached := d2.llmCached,
    filtroEtapa1Motivo := some m1,
    filtroEtapa2Motivo := some m2,
    filtroHibrido := some true}

/-- The statistics counters of `FilterManager` (the per-group and
per-term match maps are not observed by any claim and are omitted). -/
structure FMStats where
  totalAnalisados : Nat
  etapa1Aprovados : Nat
  etapa1Rejeitados : Nat
  etapa2Aprovados : Nat
  etapa2Rejeitados : Nat
  filtradosAprovados : Nat
  filtradosRejeitados : Nat
  llmEconomizados : Nat
deriving DecidableEq

/-- Configuration of a `FilterManager` instance: `self.ativo`,
`self.llm_ativo and self.llm_filter is not None`, the group dictionary,
and the LLM configuration. -/
structure FMConfig where
  ativo : Bool
  llmAtivo : Bool
  grupos : List (String × List String)
  llmCfg : LLMConfig

/-- `FilterManager.should_include_record`: disabled filter includes
unconditionally; empty objective rejects; Stage 1 rejection returns
without consulting Stage 2 (counted as an avoided oracle call); a Stage 1
approval goes to Stage 2 when the LLM filter is active, and the final
decision is Stage 2's, with merged details flagged `filtro_hibrido=True`;
if the Stage 2 call raises — or the LLM filter is inactive — the Stage 1
approval is returned with `filtro_hibrido=False` and
`llm_disponivel=self.llm_ativo`.  `none` models an uncaught `TypeError`
from a truthy non-string objective. -/
def should_include_record (fm : FMConfig) (oracle : Oracle) (now : Nat)
    (st : LLMState) (fs : FMStats) (record : Rec) :
    Option ((Bool × String × Detalhes) × LLMState × FMStats) :=
  if fm.ativo = false then
    some ((true, "Filtro desativado", emptyDetalhes), st, fs)
  else
    let fs1 := {fs with totalAnalisados := fs.totalAnalisados + 1}
    match objetoCompraOf record with
    | none => none
    | some objetivo =>
      if objetivo.data.isEmpty then
        some ((false, "objetoCompra vazio", emptyDetalhes), st,
          {fs1 with
            filtradosRejeitados := fs1.filtradosRejeitados + 1,
            etapa1Rejeitados := fs1.etapa1Rejeitados + 1})
      else
        let e1 := apply_keyword_filter_full fm.grupos objetivo
        if e1.1 = false then
          some ((false, "Etapa 1 (Palavras-chave): " ++ e1.2.1, e1.2.2), st,
            {fs1 with
              filtradosRejeitados := fs1.filtradosRejeitados + 1,
              etapa1Rejeitados := fs1.etapa1Rejeitados + 1,
              llmEconomizados := fs1.llmEconomizados + 1})
        else
          let fs2 := {fs1 with etapa1Aprovados := fs1.etapa1Aprovados + 1}
          let fallback : (Bool × String × Detalhes) × LLMState × FMStats :=
            ((true, "Apenas Etapa 1 (Palavras-chave): " ++ e1.2.1,
              {e1.2.2 with
                filtroHibrido := some false,
                llmDisponivel := some fm.llmAtivo}), st,
              {fs2 with filtradosAprovados := fs2.filtradosAprovados + 1})
          if fm.llmAtivo then
            let context : LLMContext :=
              ⟨(e1.2.2.grupoMatched).getD "", (e1.2.2.termoMatched).getD "",
                (e1.2.2.criterio).getD "", e1.2.1⟩
            match llm_should_include_record fm.llmCfg oracle now st record
                context with
            | none => some fallback
            | some ((incluir2, motivo2, det2), st2) =>
              let fsA :=
                if incluir2 then
                  {fs2 with
                    etapa2Aprovados := fs2.etapa2Aprovados + 1,
                    filtradosAprovados := fs2.filtradosAprovados + 1}
                else
                  {fs2 with
                    etapa2Rejeitados := fs2.etapa2Rejeitados + 1,
                    filtradosRejeitados := fs2.filtradosRejeitados + 1}
              some ((incluir2,
                "Híbrido: Etapa1 ✓ → Etapa2 " ++
                  (if incluir2 then "✓" else "✗") ++ " | " ++ motivo2,
                mergeDetalhes e1.2.2 det2 e1.2.1 motivo2), st2, fsA)
          else some fallback

theorem apply_keyword_filter_full_llmDisponivel
    (grupos : List (String × List String)) (objetivo : String) :
    (apply_keyword_filter_full grupos objetivo).2.2.llmDisponivel = none := by
  rw [apply_keyword_filter_full]
  split <;> rfl

/-- Empty statistics records used by the concrete runs. -/
def emptyFMStats : FMStats := ⟨0, 0, 0, 0, 0, 0, 0, 0⟩

/-- An active hybrid filter over the demo group dictionary. -/
def demoFM : FMConfig := ⟨true, true, demoGrupos, demoLLMConfig⟩

/-- A record whose objective passes Stage 1. -/
def demoRecC2 : Rec := [("objetoCompra", .str "Aquisição de canetas azuis")]

/-- **Counterexample to C2 as stated**: Stage 1 approves this record, the
oracle fails every call, and `should_include_record` returns
`include=False` with `filtro_hibrido=True` and no `llm_disponivel` key —
not the claimed Stage 1 approval with `filtro_hibrido=False,
llm_disponivel=True`.  `query_llm` turns the transport error into an
ordinary REJECT response, so the Stage-2-exception fallback never runs. -/
theorem hybrid_filter_oracle_failure_counterexample :
    (should_include_record demoFM (.error "timeout") 0 emptyLLMState
      emptyFMStats demoRecC2).map
        (fun r => (r.1.1, r.1.2.2.filtroHibrido, r.1.2.2.llmDisponivel)) =
      some (false, some true, none) := by
  rfl

/-- **C2 (amended).**  With the hybrid filter active, a Stage-1-approved
non-empty objective, an uncached text and an oracle failing every call,
`should_include_record` returns the Stage 2 decision `include=false` with
`filtro_hibrido=true`, `llm_decisao='REJEITAR'`, no `llm_disponivel` key,
and the error counter incremented — the Stage 1 fallback
(`include=true, filtro_hibrido=false, llm_disponivel=true`) is reserved
for an exception raised by the Stage 2 call, which oracle transport/parse
failures do not produce. -/
theorem hybrid_filter_oracle_failure_rejects (fm : FMConfig) (now : Nat)
    (st : LLMState) (fs : FMStats) (record : Rec) (s e : String)
    (hativo : fm.ativo = true) (hllm : fm.llmAtivo = true)
    (hobj : alistLookup record "objetoCompra" = some (.str s))
    (hne : s.data.isEmpty = false)
    (hstage1 : (apply_keyword_filter_full fm.grupos s).1 = true)
    (hmiss : (get_from_cache fm.llmCfg now st s).1 = none) :
    ∃ motivo det st2 fs2,
      should_include_record fm (.error e) now st fs record =
        some ((false, motivo, det), st2, fs2) ∧
      det.filtroHibrido = some true ∧
      det.llmDecisao = some "REJEITAR" ∧
      det.llmDisponivel = none ∧
      st2.errors = st.errors + 1 := by
  have hllmrun : ∀ ctx : LLMContext,
      llm_should_include_record fm.llmCfg (.error e) now st record ctx =
        some ((false,
          "LLM " ++ (errResp e).decisao ++ " (confiança: " ++
            toString (errResp e).confianca ++ "%)",
          {emptyDetalhes with
            llmDecisao := some (errResp e).decisao,
            llmConfianca := some (errResp e).confianca,
            llmJustificativa := some (errResp e).justificativa,
            llmTokensUsed := some (errResp e).tokensUsed,
            llmCached := some (errResp e).cached}),
          errState fm.llmCfg now st s) := by
    intro ctx
    simp only [llm_should_include_record, objetoCompraOf, hobj, hne,
      Bool.false_eq_true, if_false,
      query_llm_error_eq fm.llmCfg now st s e hmiss]
    rfl
  have hfm : should_include_record fm (.error e) now st fs record =
      some ((false,
        "Híbrido: Etapa1 ✓ → Etapa2 " ++ (if false then "✓" else "✗") ++
          " | " ++ ("LLM " ++ (errResp e).decisao ++ " (confiança: " ++
            toString (errResp e).confianca ++ "%)"),
        mergeDetalhes (apply_keyword_filter_full fm.grupos s).2.2
          {emptyDetalhes with
            llmDecisao := some (errResp e).decisao,
            llmConfianca := some (errResp e).confianca,
            llmJustificativa := some (errResp e).justificativa,
            llmTokensUsed := some (errResp e).tokensUsed,
            llmCached := some (errResp e).cached}
          (apply_keyword_filter_full fm.grupos s).2.1
          ("LLM " ++ (errResp e).decisao ++ " (confiança: " ++
            toString (errResp e).confianca ++ "%)")),
        errState fm.llmCfg now st s,
        {fs with
          totalAnalisados := fs.totalAnalisados + 1,
          etapa1Aprovados := fs.etapa1Aprovados + 1,
          etapa2Rejeitados := fs.etapa2Rejeitados + 1,
          filtradosRejeitados := fs.filtradosRejeitados + 1}) := by
    simp only [should_include_record, hativo, Bool.true_eq_false,
      Bool.false_eq_true, if_false, objetoCompraOf, hobj, hne, hstage1, hllm,
      if_true, hllmrun]
  refine ⟨_, _, _, _, hfm, rfl, rfl, ?_, ?_⟩
  · show ((apply_keyword_filter_full fm.grupos s).2.2).llmDisponivel = none
    exact apply_keyword_filter_full_llmDisponivel fm.grupos s
  · obtain ⟨he, _, _⟩ := get_from_cache_miss_fields fm.llmCfg now st s hmiss
    show ((get_from_cache fm.llmCfg now st s).2).errors + 1 = st.errors + 1
    rw [he]

/-- Witness for the amended C2 at the concrete record and failing
oracle. -/
theorem hybrid_filter_oracle_failure_rejects_witness :
    demoFM.ativo = true ∧
    (apply_keyword_filter_full demoFM.grupos
      "Aquisição de canetas azuis").1 = true ∧
    (∃ motivo det st2 fs2,
      should_include_record demoFM (.error "timeout") 0 emptyLLMState
          emptyFMStats demoRecC2 =
        some ((false, motivo, det), st2, fs2) ∧
      det.filtroHibrido = some true ∧
      det.llmDecisao = some "REJEITAR" ∧
      det.llmDisponivel = none ∧
      st2.errors = emptyLLMState.errors + 1) :=
  ⟨rfl, rfl,
    hybrid_filter_oracle_failure_rejects demoFM 0 emptyLLMState emptyFMStats
      demoRecC2 "Aquisição de canetas azuis" "timeout" rfl rfl rfl rfl rfl rfl⟩

/-! ## DatePlanner (`PNCPContractionsExtractor.get_date_ranges_for_extraction`)

Embedding of `src/extractor.py`, lines 579-620, over days encoded as
naturals (`datetime.date` ordinals; `today` is `datetime.now().date()`,
`yesterday = today - 1`).  `state.get('last_extraction_date')` being
missing/None/empty is `none`.
-/

/-- The inclusive day range `a..b` (the `while current <= today` loops). -/
def dateRangeInclusive (a b : Nat) : List Nat :=
  (List.range (b + 1 - a)).map (fun i => a + i)

/-- `get_date_ranges_for_extraction`: an explicit `execution_date`
short-circuits; `historical` or no prior state yields the backfill range
through today; otherwise production mode returns `[yesterday]` exactly
when yesterday is strictly after the last extraction date, and
development mode returns every missed day through today. -/
def get_date_ranges_for_extraction (executionDate : Option Nat)
    (historical : Bool) (backfillStart : Nat)
    (lastExtractionDate : Option Nat) (productionMode : Bool)
    (today : Nat) : List Nat :=
  match executionDate with
  | some d => [d]
  | none =>
    match lastExtractionDate with
    | none => dateRangeInclusive backfillStart today
    | some last =>
      if historical then dateRangeInclusive backfillStart today
      else if productionMode then
        if last < today - 1 then [today - 1] else []
      else dateRangeInclusive (last + 1) today

/-- **C6.**  In incremental production mode (`execution_date` unset,
`historical=False`, a prior state, `production_mode=True`) the planner
returns `[yesterday]` exactly when yesterday is strictly after
`last_extraction_date`, and `[]` otherwise — never more than one date; in
particular `last = yesterday` gives `[]` and `last = two days ago` gives
`[yesterday]`. -/
theorem plan_dates_incremental_production (backfillStart last today : Nat)
    (_htoday : 1 ≤ today) :
    get_date_ranges_for_extraction none false backfillStart (some last) true
        today = (if last < today - 1 then [today - 1] else []) ∧
    (get_date_ranges_for_extraction none false backfillStart (some last) true
        today).length ≤ 1 ∧
    (last = today - 1 →
      get_date_ranges_for_extraction none false backfillStart (some last) true
        today = []) ∧
    (2 ≤ today → last = today - 2 →
      get_date_ranges_for_extraction none false backfillStart (some last) true
        today = [today - 1]) := by
  have heq : get_date_ranges_for_extraction none false backfillStart
      (some last) true today = (if last < today - 1 then [today - 1] else []) :=
    rfl
  refine ⟨heq, ?_, ?_, ?_⟩
  · rw [heq]
    split <;> simp
  · intro hlast
    rw [heq, if_neg]
    omega
  · intro h2 hlast
    rw [heq, if_pos]
    omega

/-- Witness for C6 with today = 100: `last = 99` (yesterday) plans
nothing, `last = 98` (two days ago) plans `[99]`. -/
theorem plan_dates_incremental_production_witness :
    (1 : Nat) ≤ 100 ∧
    get_date_ranges_for_extraction none false 0 (some 99) true 100 = [] ∧
    get_date_ranges_for_extraction none false 0 (some 98) true 100 = [99] :=
  ⟨by omega,
    (plan_dates_incremental_production 0 99 100 (by omega)).2.2.1 rfl,
    (plan_dates_incremental_production 0 98 100 (by omega)).2.2.2 (by omega)
      rfl⟩

end PNCP
